import Mathlib

/-!
Verification development for the sparkle-text repository.

The component under study renders text to an offscreen bitmap, builds a binary
fill mask from its alpha channel, flood-fills the background from the bitmap
border to separate the true outside from enclosed holes, extracts edge pixels
with outward normals, and runs a particle simulation against that data
(`src/SparkleText.tsx`, function `rebuildMask` and the `tick` callback).

This file shallowly embeds those computations:

* grids are total functions `Int → Int → Bool` (the source uses flat
  `Uint8Array`s indexed `y*width+x`; every read the source performs is at an
  in-bounds index, so the function view is faithful);
* the border flood fill is the source's explicit-queue BFS, written with a
  fuel parameter large enough to be proved never to run out;
* JavaScript float arithmetic is modelled with exact rationals / reals: the
  only irrational quantity the control flow ever inspects is `Math.hypot` of a
  central-difference gradient with components in {-1,0,1}, whose rounded
  2-pixel step is computed by `rstep` and proved equal to the real-number
  rounding (`rstep_models_round`);
* `Math.random` is an oracle stream `Nat → ℚ` consumed in call order, and the
  transcendental functions `cos`/`sin`/`atan2` are an abstract `Trig`
  parameter, so theorems quantifying over them cover the real functions.
-/

/-- The binary fill mask built in `rebuildMask`: `inside x y = true` iff the
offscreen alpha sample at pixel `(x, y)` exceeded the threshold 12
(`inside[y*width+x] = alpha > 12 ? 1 : 0`). Out-of-bounds reads never occur in
the embedded code paths. -/
structure Mask where
  width : Nat
  height : Nat
  inside : Int → Int → Bool

/-- State of the border flood fill: the `outside` grid being marked and the
explicit FIFO queue (`qx`/`qy` with head `qh` and tail `qt` in the source). -/
structure FloodState where
  outside : Int → Int → Bool
  queue : List (Int × Int)

/-- Pointwise update of a grid function: `outside[p] = 1` at `(px, py)`. -/
def markAt (f : Int → Int → Bool) (px py : Int) : Int → Int → Bool :=
  fun a b => if a = px ∧ b = py then true else f a b

/-- The source's `enqueue(px, py)`: if the cell is not yet marked outside and
is not a fill cell, mark it and push it at the queue's tail. -/
def enqueue (m : Mask) (px py : Int) (st : FloodState) : FloodState :=
  if st.outside px py = false ∧ m.inside px py = false then
    { outside := markAt st.outside px py, queue := st.queue ++ [(px, py)] }
  else st

/-- `[0, 1, ..., n-1]` as integers: the index range of the seeding loops. -/
def intRange (n : Nat) : List Int :=
  (List.range n).map fun i : Nat => (i : Int)

/-- First seeding loop: `for x0 in [0, width): enqueue(x0, 0); enqueue(x0, height-1)`. -/
def seedTopBottom (m : Mask) : List Int → FloodState → FloodState
  | [], st => st
  | x0 :: rest, st =>
      seedTopBottom m rest (enqueue m x0 ((m.height : Int) - 1) (enqueue m x0 0 st))

/-- Second seeding loop: `for y0 in [0, height): enqueue(0, y0); enqueue(width-1, y0)`. -/
def seedLeftRight (m : Mask) : List Int → FloodState → FloodState
  | [], st => st
  | y0 :: rest, st =>
      seedLeftRight m rest (enqueue m ((m.width : Int) - 1) y0 (enqueue m 0 y0 st))

/-- Queue and marks after both border-seeding loops, starting from the
all-zero `outside` grid and the empty queue. -/
def seedBorder (m : Mask) : FloodState :=
  seedLeftRight m (intRange m.height) (seedTopBottom m (intRange m.width) ⟨fun _ _ => false, []⟩)

/-- The 8 neighbour offsets `(dx, dy)` in the source's visit order
(`dy` outer from -1 to 1, `dx` inner from -1 to 1, skipping `(0,0)`). -/
def nbrDeltas : List (Int × Int) :=
  [(-1, -1), (0, -1), (1, -1), (-1, 0), (1, 0), (-1, 1), (0, 1), (1, 1)]

/-- The body of one BFS dequeue: try to enqueue each 8-neighbour of `(px, py)`
that passes the source's explicit bounds check
`nx >= 0 && nx < width && ny >= 0 && ny < height`. -/
def stepNbrs (m : Mask) (px py : Int) : List (Int × Int) → FloodState → FloodState
  | [], st => st
  | d :: rest, st =>
      let nx := px + d.1
      let ny := py + d.2
      stepNbrs m px py rest
        (if 0 ≤ nx ∧ nx < (m.width : Int) ∧ 0 ≤ ny ∧ ny < (m.height : Int) then
          enqueue m nx ny st
        else st)

/-- The BFS `while (qh < qt)` loop. The `fuel` parameter only bounds the
number of iterations; `floodFuel` below is proved large enough that the queue
always empties first, so the fuelled function computes exactly the source's
loop. -/
def floodLoop (m : Mask) : Nat → FloodState → FloodState
  | 0, st => st
  | fuel + 1, st =>
      match st.queue with
      | [] => st
      | c :: rest => floodLoop m fuel (stepNbrs m c.1 c.2 nbrDeltas ⟨st.outside, rest⟩)

/-- Iteration budget for `floodLoop`; each marked cell costs at most 9
iterations and the border seeding enqueues at most `2*(width+height)` cells. -/
def floodFuel (m : Mask) : Nat :=
  9 * m.width * m.height + 2 * (m.width + m.height) + 1

/-- The completed `outside` grid: `outside x y = true` iff the flood fill from
the border marked the cell. -/
def floodFill (m : Mask) : Int → Int → Bool :=
  (floodLoop m (floodFuel m) (seedBorder m)).outside

/-- The source's `isOutside(ix, iy)` predicate (`outside[iy*W+ix] === 1`). -/
def isOutsideAt (m : Mask) (x y : Int) : Bool :=
  floodFill m x y

/-- The source's `isHole(ix, iy)` predicate: not a fill pixel and not reached
by the border flood fill (`inside === 0 && outside === 0`). -/
def isHoleAt (m : Mask) (x y : Int) : Bool :=
  !m.inside x y && !floodFill m x y

/-- The three region labels of the classification. -/
inductive RegionLabel where
  | fill
  | outside
  | hole
deriving DecidableEq, Repr

/-- Classification of one cell, assembled from the source's three mutually
exclusive predicates `insideAt` / `isOutside` / `isHole`. -/
def regionOf (m : Mask) (x y : Int) : RegionLabel :=
  if m.inside x y then .fill
  else if floodFill m x y then .outside
  else .hole

/-- In-bounds predicate for a cell of the pixel grid. -/
def inB (m : Mask) (c : Int × Int) : Prop :=
  0 ≤ c.1 ∧ c.1 < (m.width : Int) ∧ 0 ≤ c.2 ∧ c.2 < (m.height : Int)

instance (m : Mask) (c : Int × Int) : Decidable (inB m c) := by
  unfold inB; infer_instance

/-- One 8-connected step of the reachability relation the spec describes:
the target is an in-bounds non-fill cell within Chebyshev distance 1. -/
def adjStep (m : Mask) (a b : Int × Int) : Prop :=
  inB m b ∧ m.inside b.1 b.2 = false ∧ (b.1 - a.1).natAbs ≤ 1 ∧ (b.2 - a.2).natAbs ≤ 1

/-- A border cell of the grid. -/
def isBorderCell (m : Mask) (c : Int × Int) : Prop :=
  inB m c ∧ (c.1 = 0 ∨ c.1 = (m.width : Int) - 1 ∨ c.2 = 0 ∨ c.2 = (m.height : Int) - 1)

/-- The specification-side notion for claim C1: the cell is reachable from
some non-fill border cell by an 8-connected path of non-fill cells. -/
def OutsideReach (m : Mask) (c : Int × Int) : Prop :=
  ∃ s : Int × Int, isBorderCell m s ∧ m.inside s.1 s.2 = false ∧
    Relation.ReflTransGen (adjStep m) s c

/-- The full region-classification specification of claim C1 for one mask:
each in-bounds cell carries exactly one of the three labels (`regionOf` is a
function into `RegionLabel`, so the partition is total and disjoint by
construction), FILL is exactly the mask's true cells, OUTSIDE is exactly
border-reachability over non-fill cells, HOLE is exactly the unreachable
non-fill cells, and a mask with no fill pixel is labelled all-OUTSIDE. -/
def FloodSpec (m : Mask) : Prop :=
  (∀ c : Int × Int, inB m c → (regionOf m c.1 c.2 = .fill ↔ m.inside c.1 c.2 = true)) ∧
  (∀ c : Int × Int, inB m c →
    (regionOf m c.1 c.2 = .outside ↔ (m.inside c.1 c.2 = false ∧ OutsideReach m c))) ∧
  (∀ c : Int × Int, inB m c →
    (regionOf m c.1 c.2 = .hole ↔ (m.inside c.1 c.2 = false ∧ ¬ OutsideReach m c))) ∧
  ((∀ c : Int × Int, inB m c → m.inside c.1 c.2 = false) →
    ∀ c : Int × Int, inB m c → regionOf m c.1 c.2 = .outside)

/-- The interior scan range of the edge loops,
`for (i = 1; i < n - 1; i++)`: the integers `1, ..., n-2`. -/
def scanRange (n : Nat) : List Int :=
  (List.range (n - 2)).map fun i : Nat => (i : Int) + 1

/-- `Math.min(n - 1, Math.max(0, v))`: the probe-coordinate clamp. -/
def clampIdx (n : Nat) (v : Int) : Int :=
  min ((n : Int) - 1) (max 0 v)

/-- Squared length of the central-difference gradient (`gx*gx + gy*gy`). -/
def len2 (gx gy : Int) : Int :=
  gx * gx + gy * gy

/-- The integer the source's probe offset `Math.round(g / (Math.hypot(gx,gy) || 1) * 2)`
works out to when `g` is one component of a gradient with components in
{-1,0,1} and `L` is the squared gradient length: `2g` when the gradient is
axis-aligned or zero, `g` when it is diagonal (`round(±2/√2) = ±1`).
`rstep_models_round` below proves this equals the real-number rounding. -/
def rstep (g L : Int) : Int :=
  if L = 2 then g else 2 * g

/-- One extracted edge point. The source stores the already-oriented float
normal `(nx, ny)`; here `nx`/`ny` are its exact integer numerators (the
possibly negated central-difference gradient), the denominator being
`Math.hypot(nx, ny) || 1`. `toward` records which of the two push sites
emitted the point (toward OUTSIDE or toward HOLE); the simulation never reads
it, it only names the region the point's orientation targets. -/
structure EdgePoint where
  x : Int
  y : Int
  nx : Int
  ny : Int
  toward : RegionLabel
deriving DecidableEq, Repr

/-- The x central difference of the binary fill mask,
`(insideAt(ix+1, iy) ? 1 : 0) - (insideAt(ix-1, iy) ? 1 : 0)`. -/
def gradX (m : Mask) (ix iy : Int) : Int :=
  (if m.inside (ix + 1) iy then (1 : Int) else 0) -
    (if m.inside (ix - 1) iy then (1 : Int) else 0)

/-- The y central difference of the binary fill mask,
`(insideAt(ix, iy+1) ? 1 : 0) - (insideAt(ix, iy-1) ? 1 : 0)`. -/
def gradY (m : Mask) (ix iy : Int) : Int :=
  (if m.inside ix (iy + 1) then (1 : Int) else 0) -
    (if m.inside ix (iy - 1) then (1 : Int) else 0)

/-- Edge points contributed by one interior cell `(ix, iy)` of the scan:
skip non-fill cells; test the 8 neighbours for OUTSIDE (and, failing that per
neighbour, HOLE); compute the central-difference gradient of the binary fill
mask; then for each touched region type probe ~2 px along the candidate
normal (coordinates clamped to the grid) and negate the normal if the probed
cell is not of that region type. -/
def cellEdges (m : Mask) (ix iy : Int) : List EdgePoint :=
  if !m.inside ix iy then []
  else
    let touchesOutside := nbrDeltas.any fun d => isOutsideAt m (ix + d.1) (iy + d.2)
    let touchesHole := nbrDeltas.any fun d =>
      !isOutsideAt m (ix + d.1) (iy + d.2) && isHoleAt m (ix + d.1) (iy + d.2)
    if !touchesOutside && !touchesHole then []
    else
      let gx := gradX m ix iy
      let gy := gradY m ix iy
      let L := len2 gx gy
      let outPart :=
        if touchesOutside then
          let testXo := clampIdx m.width (ix + rstep gx L)
          let testYo := clampIdx m.height (iy + rstep gy L)
          if !isOutsideAt m testXo testYo then [⟨ix, iy, -gx, -gy, .outside⟩]
          else [⟨ix, iy, gx, gy, .outside⟩]
        else []
      let holePart :=
        if touchesHole then
          let testXh := clampIdx m.width (ix + rstep gx L)
          let testYh := clampIdx m.height (iy + rstep gy L)
          if !isHoleAt m testXh testYh then [⟨ix, iy, -gx, -gy, .hole⟩]
          else [⟨ix, iy, gx, gy, .hole⟩]
        else []
      outPart ++ holePart

/-- The full edge-point extraction: scan the interior cells row-major
(`iy` outer, `ix` inner), collecting each cell's contributions. -/
def edgePoints (m : Mask) : List EdgePoint :=
  (scanRange m.height).flatMap fun iy =>
    (scanRange m.width).flatMap fun ix => cellEdges m ix iy

/-- The grid cell reached by stepping ~2 px along an edge point's stored
normal, with both coordinates clamped to the grid — the cell the source
samples in its orientation test, recomputed for the stored (possibly negated)
normal. -/
def probeTarget (m : Mask) (e : EdgePoint) : Int × Int :=
  (clampIdx m.width (e.x + rstep e.nx (len2 e.nx e.ny)),
   clampIdx m.height (e.y + rstep e.ny (len2 e.nx e.ny)))

/-- Claim C2's property for one edge point: the probed cell is of the region
type the point claims to be oriented toward. -/
def probeOK (m : Mask) (e : EdgePoint) : Prop :=
  regionOf m (probeTarget m e).1 (probeTarget m e).2 = e.toward

instance (m : Mask) (e : EdgePoint) : Decidable (probeOK m e) := by
  unfold probeOK; infer_instance

/-- An edge point with the opposite orientation of the same gradient. -/
def flipNormal (e : EdgePoint) : EdgePoint :=
  { e with nx := -e.nx, ny := -e.ny }

/-- The length the source divides the gradient by: `Math.hypot(gx, gy) || 1`
(so the zero gradient is divided by 1 instead of producing NaN). -/
noncomputable def hypotOr1 (gx gy : Int) : ℝ :=
  if Real.sqrt ((gx : ℝ) ^ 2 + (gy : ℝ) ^ 2) = 0 then 1
  else Real.sqrt ((gx : ℝ) ^ 2 + (gy : ℝ) ^ 2)

/-- The stored float normal's x component, reconstructed exactly:
the integer numerator divided by `hypot || 1` (negating the numerator and
negating the quotient agree, so this is the value the source stores). -/
noncomputable def normalX (e : EdgePoint) : ℝ :=
  (e.nx : ℝ) / hypotOr1 e.nx e.ny

/-- The stored float normal's y component, reconstructed exactly. -/
noncomputable def normalY (e : EdgePoint) : ℝ :=
  (e.ny : ℝ) / hypotOr1 e.nx e.ny

/-- Bounds-checked read of one cell's `(inside, outside)` grid entries, for
the safety statement of claim C10: `none` exactly when the source would read a
flat array out of bounds. -/
def readCell (m : Mask) (x y : Int) : Option (Bool × Bool) :=
  if 0 ≤ x ∧ x < (m.width : Int) ∧ 0 ≤ y ∧ y < (m.height : Int) then
    some (m.inside x y, floodFill m x y)
  else none

/-- `cellEdges` with every grid access bounds-checked: the same computation in
the `Option` monad, failing on any out-of-bounds read. -/
def cellEdgesChecked (m : Mask) (ix iy : Int) : Option (List EdgePoint) := do
  let c0 ← readCell m ix iy
  if !c0.1 then return []
  else
    let nb ← nbrDeltas.mapM fun d => readCell m (ix + d.1) (iy + d.2)
    let touchesOutside := nb.any fun c => c.2
    let touchesHole := nb.any fun c => !c.2 && (!c.1 && !c.2)
    if !touchesOutside && !touchesHole then return []
    else
      let cR ← readCell m (ix + 1) iy
      let cL ← readCell m (ix - 1) iy
      let cD ← readCell m ix (iy + 1)
      let cU ← readCell m ix (iy - 1)
      let gx := (if cR.1 then (1 : Int) else 0) - (if cL.1 then (1 : Int) else 0)
      let gy := (if cD.1 then (1 : Int) else 0) - (if cU.1 then (1 : Int) else 0)
      let L := len2 gx gy
      let outPart ←
        if touchesOutside then do
          let t ← readCell m (clampIdx m.width (ix + rstep gx L))
                           (clampIdx m.height (iy + rstep gy L))
          pure (if !t.2 then [(⟨ix, iy, -gx, -gy, .outside⟩ : EdgePoint)]
                else [(⟨ix, iy, gx, gy, .outside⟩ : EdgePoint)])
        else pure []
      let holePart ←
        if touchesHole then do
          let t ← readCell m (clampIdx m.width (ix + rstep gx L))
                           (clampIdx m.height (iy + rstep gy L))
          pure (if !(!t.1 && !t.2) then [(⟨ix, iy, -gx, -gy, .hole⟩ : EdgePoint)]
                else [(⟨ix, iy, gx, gy, .hole⟩ : EdgePoint)])
        else pure []
      return outPart ++ holePart

/-- `edgePoints` with every grid access bounds-checked. -/
def edgePointsChecked (m : Mask) : Option (List EdgePoint) := do
  let rows ← (scanRange m.height).mapM fun iy => do
    let cells ← (scanRange m.width).mapM fun ix => cellEdgesChecked m ix iy
    pure cells.flatten
  pure rows.flatten

/-- The per-render configuration snapshot consumed by the `tick` callback
(`particleSize`/`ttl` ranges flattened to min/max fields). -/
structure SimConfig where
  emissionRate : ℚ
  speed : ℚ
  spread : ℚ
  gravity : ℚ
  maxParticles : Nat
  sizeMin : ℚ
  sizeMax : ℚ
  ttlMin : ℚ
  ttlMax : ℚ
  colors : List String
  paused : Bool
deriving DecidableEq, Repr

/-- One live particle of the pool (`{x, y, vx, vy, r, life, ttl, color}`). -/
structure Particle where
  x : ℚ
  y : ℚ
  vx : ℚ
  vy : ℚ
  r : ℚ
  life : ℚ
  ttl : ℚ
  color : String
deriving DecidableEq, Repr

/-- The mutable simulation state held across ticks:
`particlesRef.current` and `spawnCarryRef.current`. -/
structure SimState where
  particles : List Particle
  carry : ℚ
deriving DecidableEq, Repr

/-- Abstract interface for `Math.cos` / `Math.sin` / `Math.atan2` (argument
order `atan2 y x` as in JS). Theorems about the simulation quantify over all
`Trig` instantiations, hence hold for the real transcendental functions;
concrete instantiations make the witnesses computable. -/
structure Trig where
  cos : ℚ → ℚ
  sin : ℚ → ℚ
  atan2 : ℚ → ℚ → ℚ

/-- JavaScript's `| 0` truncation toward zero (for values in int32 range). -/
def truncJS (q : ℚ) : Int :=
  if q < 0 then -(⌊-q⌋) else ⌊q⌋

/-- The random-hue fallback color `hsl(<hue> 90% 65%)`. -/
def hslColor (h : Int) : String :=
  "hsl(" ++ toString h ++ " 90% 65%)"

/-- Fallback for the edge-list index: the source indexes
`edges[(Math.random() * edges.length) | 0]`, which is always in range when
the random stream obeys its [0,1) contract, so this default is never read in
that case. -/
def dummyEdge : EdgePoint := ⟨0, 0, 0, 0, .outside⟩

/-- The spawn accounting step: `toSpawnFloat = emissionRate*dt + carry`,
`toSpawn = floor(toSpawnFloat)`, new carry `= toSpawnFloat - toSpawn`. -/
def spawnAcc (rate carry dt : ℚ) : Int × ℚ :=
  let toSpawnFloat := rate * dt + carry
  (⌊toSpawnFloat⌋, toSpawnFloat - ⌊toSpawnFloat⌋)

/-- Construction of one spawned particle; `k` is the position of its first
`Math.random()` draw in the oracle stream (seven draws per spawn, in source
order). `atan2` is applied to the stored normal's integer numerators — the
same angle as for the stored floats, `atan2` being positively homogeneous. -/
def spawnOne (cfg : SimConfig) (T : Trig) (edges : List EdgePoint)
    (rnd : Nat → ℚ) (k : Nat) : Particle :=
  let e := edges.getD (truncJS (rnd k * edges.length)).toNat dummyEdge
  let off := 1.2 + rnd (k + 1) * 1.8
  let baseAng := T.atan2 (e.ny : ℚ) (e.nx : ℚ)
  let ang := baseAng + (rnd (k + 2) - 0.5) * cfg.spread
  let spd := cfg.speed * (0.8 + rnd (k + 3) * 0.6)
  let col :=
    if cfg.colors.length ≠ 0 then
      cfg.colors.getD (truncJS (rnd (k + 4) * cfg.colors.length)).toNat ""
    else hslColor (truncJS (rnd (k + 4) * 360))
  let pr := cfg.sizeMin + rnd (k + 5) * (cfg.sizeMax - cfg.sizeMin)
  let pttl := cfg.ttlMin + rnd (k + 6) * (cfg.ttlMax - cfg.ttlMin)
  { x := (e.x : ℚ) + T.cos ang * off
    y := (e.y : ℚ) + T.sin ang * off
    vx := T.cos ang * spd
    vy := T.sin ang * spd
    r := pr
    life := 0
    ttl := pttl
    color := col }

/-- The spawn loop `while (toSpawn-- > 0 && arr.length < maxParticles)`:
`n` is the remaining request count, `k` the oracle position; each push goes
to the array's tail. -/
def spawnLoop (cfg : SimConfig) (T : Trig) (edges : List EdgePoint)
    (rnd : Nat → ℚ) : Nat → Nat → List Particle → List Particle
  | 0, _, arr => arr
  | n + 1, k, arr =>
      if arr.length < cfg.maxParticles then
        spawnLoop cfg T edges rnd n (k + 7) (arr ++ [spawnOne cfg T edges rnd k])
      else arr

/-- Integration of one live particle over `dt`:
`vy += gravity*dt; x += vx*dt; y += vy*dt; life += dt` (the position update
uses the already-updated `vy`, as in the source). -/
def integrate (cfg : SimConfig) (dt : ℚ) (p : Particle) : Particle :=
  let vy := p.vy + cfg.gravity * dt
  { p with vy := vy, x := p.x + p.vx * dt, y := p.y + vy * dt, life := p.life + dt }

/-- The removal test applied right after integration: expire when
`life >= ttl`; otherwise cull when the truncated pixel position is out of the
grid or samples a fill cell (`insideMask[iy*w+ix] === 1`). The source has no
flag disabling this cull — it runs unconditionally. -/
def keepAfterUpdate (m : Mask) (p : Particle) : Bool :=
  if p.life ≥ p.ttl then false
  else
    let ix := truncJS p.x
    let iy := truncJS p.y
    !(ix < 0 ∨ iy < 0 ∨ ix ≥ (m.width : Int) ∨ iy ≥ (m.height : Int) ∨
      m.inside ix iy = true : Bool)

/-- The update phase of one tick: integrate every particle, then drop the
expired and culled ones (the source's backward splice loop preserves the
order of survivors, so it equals map-then-filter). -/
def updateParticles (cfg : SimConfig) (m : Mask) (dt : ℚ)
    (arr : List Particle) : List Particle :=
  (arr.map (integrate cfg dt)).filter (keepAfterUpdate m)

/-- One simulation tick. Early returns mirror the source: a paused tick does
nothing, and a tick with an empty edge list returns before touching the pool
or the carry. `dtRaw` is the elapsed time in seconds; the source clamps it to
`Math.min(0.05, elapsed)` (0.05 = 1/20). The trim drops the oldest surplus
from the array's front before spawning. -/
def tick (cfg : SimConfig) (T : Trig) (m : Mask) (edges : List EdgePoint)
    (rnd : Nat → ℚ) (dtRaw : ℚ) (st : SimState) : SimState :=
  if cfg.paused then st
  else
    let dt := min (1 / 20 : ℚ) dtRaw
    if edges.length = 0 then st
    else
      let arr :=
        if st.particles.length > cfg.maxParticles then
          st.particles.drop (st.particles.length - cfg.maxParticles)
        else st.particles
      let acc := spawnAcc cfg.emissionRate st.carry dt
      let arr := spawnLoop cfg T edges rnd acc.1.toNat 0 arr
      let arr := updateParticles cfg m dt arr
      { particles := arr, carry := acc.2 }

/-- Total spawn requests (`toSpawn` values) over a sequence of clamped tick
durations, starting from a given carry. -/
def spawnRequestsAux (rate : ℚ) : List ℚ → ℚ → Int
  | [], _ => 0
  | dt :: rest, c => (spawnAcc rate c dt).1 + spawnRequestsAux rate rest (spawnAcc rate c dt).2

/-- Final carry value over a sequence of clamped tick durations. -/
def spawnCarryAux (rate : ℚ) : List ℚ → ℚ → ℚ
  | [], c => c
  | dt :: rest, c => spawnCarryAux rate rest (spawnAcc rate c dt).2

/-- The canvas blend modes the compositor switches between. -/
inductive BlendMode where
  | lighter
  | sourceOver
deriving DecidableEq, Repr

/-- One drawn circle: position, drawn radius, clamped global alpha, color. -/
structure DrawCmd where
  x : ℚ
  y : ℚ
  radius : ℚ
  alpha : ℚ
  color : String
deriving DecidableEq, Repr

/-- The draw call for one live particle: with `t = life/ttl`, radius
`r * (0.6 + 0.8 * (1 - t))` and alpha `clamp(1 - t, 0, 1)`. -/
def drawParticle (p : Particle) : DrawCmd :=
  let t := p.life / p.ttl
  let a := 1 - t
  { x := p.x
    y := p.y
    radius := p.r * (0.6 + 0.8 * (1 - t))
    alpha := max 0 (min 1 a)
    color := p.color }

/-- One frame of the compositor: clear, switch to `lighter` (additive)
blending, draw every live particle in order, then restore alpha 1 and
source-over blending. -/
structure DrawBatch where
  blend : BlendMode
  cmds : List DrawCmd
  finalAlpha : ℚ
  finalBlend : BlendMode
deriving DecidableEq, Repr

/-- The compositor output for the current particle list. -/
def drawFrame (ps : List Particle) : DrawBatch :=
  { blend := .lighter
    cmds := ps.map drawParticle
    finalAlpha := 1
    finalBlend := .sourceOver }

/-- The destructuring fallback values hardcoded in the component
(`SparkleText.tsx` lines 57-71). `spread = Math.PI/6` is stated separately in
`componentSpread` since it is irrational; the props type declares no
`allowInside` option. -/
structure ComponentFallbacks where
  emissionRate : ℚ
  speed : ℚ
  gravity : ℚ
  maxParticles : Nat
  sizeMin : ℚ
  sizeMax : ℚ
  ttlMin : ℚ
  ttlMax : ℚ
  colorsGiven : Bool
  paused : Bool
  canvasBleed : ℚ
deriving DecidableEq, Repr

/-- The fallback values of `SparkleText.tsx`:
`emissionRate = 180, speed = 120, gravity = 100, maxParticles = 1200,
particleSize = {0.7, 2.0}, ttl = {0.7, 1.6}, colors = undefined,
paused = false, canvasBleed = 48`. -/
def componentFallbacks : ComponentFallbacks :=
  ⟨180, 120, 100, 1200, 0.7, 2.0, 0.7, 1.6, false, false, 48⟩

/-- The component's `spread` fallback, `Math.PI / 6`. -/
noncomputable def componentSpread : ℝ := Real.pi / 6

/-- The shape of the `SPARKLE_DEFAULTS` record of `SparkleText.defaults.ts`
(which, unlike the component's props, includes `allowInside`). -/
structure SparkleDefaultsFile where
  emissionRate : ℚ
  speed : ℚ
  gravity : ℚ
  maxParticles : Nat
  sizeMin : ℚ
  sizeMax : ℚ
  ttlMin : ℚ
  ttlMax : ℚ
  colorsGiven : Bool
  paused : Bool
  canvasBleed : ℚ
  allowInside : Bool
deriving DecidableEq, Repr

/-- `SPARKLE_DEFAULTS` from `SparkleText.defaults.ts`:
`{emissionRate: 150, speed: 100, spread: Math.PI/6, gravity: 100,
maxParticles: 1200, particleSize: {0.5, 1.2}, ttl: {0.5, 1.2},
colors: undefined, paused: false, canvasBleed: 60, allowInside: false}`. -/
def SPARKLE_DEFAULTS : SparkleDefaultsFile :=
  ⟨150, 100, 100, 1200, 0.5, 1.2, 0.5, 1.2, false, false, 60, false⟩

/-- The `spread` entry of `SPARKLE_DEFAULTS`, `Math.PI / 6`. -/
noncomputable def defaultsFileSpread : ℝ := Real.pi / 6

/-- A 3x3 mask whose only fill pixel is the centre: an isolated dot. Its one
interior cell has central-difference gradient (0, 0). -/
def mask3 : Mask :=
  ⟨3, 3, fun x y => decide (x = 1 ∧ y = 1)⟩

/-- A 5x5 mask with fill pixels at (1,1), (2,2), (3,2), (2,3), (3,3): the
cell (2,2) has gradient (1, 1), touches OUTSIDE at (1,2), and both of its
2-px probe cells (3,3) and (1,1) are fill. -/
def mask5 : Mask :=
  ⟨5, 5, fun x y => decide ((x, y) ∈ ([(1, 1), (2, 2), (3, 2), (2, 3), (3, 3)] : List (Int × Int)))⟩

/-- A 10x10 mask with no fill pixels. -/
def maskEmpty10 : Mask :=
  ⟨10, 10, fun _ _ => false⟩

/-- A 5x5 mask whose only fill pixel is (2,2), used to demonstrate the
unconditional fill cull of the update phase. -/
def maskDot5 : Mask :=
  ⟨5, 5, fun x y => decide (x = 2 ∧ y = 2)⟩

/-- A concrete `Trig` instantiation for witnesses (`cos = 1`, `sin = 0`,
`atan2 = 0`); claim theorems quantify over every instantiation. -/
def trigConst : Trig :=
  ⟨fun _ => 1, fun _ => 0, fun _ _ => 0⟩

/-- A concrete all-zero random oracle for witnesses. -/
def rndZero : Nat → ℚ := fun _ => 0

/-- A configuration with `maxParticles = 0` and emission 0, used with an
empty edge list to exhibit the early-return path of `tick`. -/
def cfgZeroCap : SimConfig :=
  ⟨0, 0, 0, 0, 0, 0, 0, 0, 0, [], false⟩

/-- A configuration with `maxParticles = 1` and emission rate 100
(gravity 0 to keep the arithmetic small). -/
def cfgCapOne : SimConfig :=
  ⟨100, 0, 0, 0, 1, 0, 0, 1, 1, [], false⟩

/-- A configuration with emission 0, gravity 0 and a roomy pool, used for the
cull demonstration. -/
def cfgCull : SimConfig :=
  ⟨0, 0, 0, 0, 10, 0, 0, 1, 1, [], false⟩

/-- An arbitrary nonempty edge list for ticks that must get past the
empty-edge early return. -/
def edgesOne : List EdgePoint := [⟨0, 0, 1, 0, .outside⟩]

/-- A particle resting at (0,0) (used where its motion is irrelevant). -/
def pOrigin : Particle := ⟨0, 0, 0, 0, 1, 0, 1, ""⟩

/-- A particle resting at (2,2) inside a 10x10 empty mask: it survives the
update phase of a small tick. -/
def pResting : Particle := ⟨2, 2, 0, 0, 1, 0, 1, ""⟩

/-- A particle whose truncated position (2,2) is the fill pixel of
`maskDot5`. -/
def pOnFill : Particle := ⟨5/2, 5/2, 0, 0, 1, 0, 10, ""⟩

/-- A particle whose truncated position (0,0) is background in `maskDot5`. -/
def pOffFill : Particle := ⟨1/2, 1/2, 0, 0, 1, 0, 10, ""⟩

/-- Invariant of the border-seeding phase: marked cells are exactly the
queued ones, and every marked cell is an in-bounds non-fill border cell. -/
structure SeedInv (m : Mask) (st : FloodState) : Prop where
  sound : ∀ c : Int × Int, st.outside c.1 c.2 = true →
    inB m c ∧ m.inside c.1 c.2 = false ∧ isBorderCell m c
  inqueue : ∀ c : Int × Int, st.outside c.1 c.2 = true → c ∈ st.queue
  qmarked : ∀ c ∈ st.queue, st.outside c.1 c.2 = true

/-- Invariant of the BFS loop: every marked cell is an in-bounds non-fill
cell reachable from the border; queued cells are marked; a marked cell that
has left the queue already has all its 8-neighbours marked; and every
non-fill border cell is marked. -/
structure LoopInv (m : Mask) (st : FloodState) : Prop where
  sound : ∀ c : Int × Int, st.outside c.1 c.2 = true →
    inB m c ∧ m.inside c.1 c.2 = false ∧ OutsideReach m c
  qmarked : ∀ c ∈ st.queue, st.outside c.1 c.2 = true
  closed : ∀ c : Int × Int, st.outside c.1 c.2 = true →
    c ∈ st.queue ∨ ∀ d : Int × Int, adjStep m c d → st.outside d.1 d.2 = true
  seeded : ∀ c : Int × Int, isBorderCell m c → m.inside c.1 c.2 = false →
    st.outside c.1 c.2 = true

/-- Number of in-bounds cells not yet marked outside. -/
def unmarkedCount (m : Mask) (st : FloodState) : Nat :=
  ((Finset.range m.width ×ˢ Finset.range m.height).filter
    (fun c => st.outside (c.1 : Int) (c.2 : Int) = false)).card

/-- Termination measure of the BFS: each dequeue costs 1 and each enqueue
pays for itself by marking a fresh in-bounds cell. -/
def floodMeasure (m : Mask) (st : FloodState) : Nat :=
  9 * unmarkedCount m st + st.queue.length

theorem markAt_self (f : Int → Int → Bool) (a b : Int) : markAt f a b a b = true := by
  simp [markAt]

theorem markAt_mono {f : Int → Int → Bool} {x y : Int} (a b : Int)
    (h : f x y = true) : markAt f a b x y = true := by
  unfold markAt
  split <;> simp [h]

theorem enqueue_mono {m : Mask} {st : FloodState} {x y : Int} (a b : Int)
    (h : st.outside x y = true) : (enqueue m a b st).outside x y = true := by
  unfold enqueue
  split <;> simp [markAt_mono _ _ h, h]

theorem enqueue_marks {m : Mask} {st : FloodState} {a b : Int}
    (h : m.inside a b = false) : (enqueue m a b st).outside a b = true := by
  unfold enqueue
  split
  · exact markAt_self _ _ _
  · rename_i hg
    rcases Bool.eq_false_or_eq_true (st.outside a b) with h1 | h1
    · exact h1
    · exact absurd ⟨h1, h⟩ hg

theorem enqueue_queue_mono {m : Mask} {st : FloodState} {c : Int × Int} (a b : Int)
    (h : c ∈ st.queue) : c ∈ (enqueue m a b st).queue := by
  unfold enqueue
  split <;> simp [h]

theorem enqueue_outside_cases {m : Mask} {st : FloodState} {a b x y : Int}
    (h : (enqueue m a b st).outside x y = true) :
    st.outside x y = true ∨
      (x = a ∧ y = b ∧ m.inside a b = false ∧ st.outside a b = false) := by
  unfold enqueue at h
  split at h
  · rename_i hg
    dsimp only [markAt] at h
    split at h
    · rename_i hxy
      exact Or.inr ⟨hxy.1, hxy.2, hg.2, hg.1⟩
    · exact Or.inl h
  · exact Or.inl h

theorem enqueue_marked_in_queue {m : Mask} {st : FloodState} {a b : Int}
    {v : Int × Int} (h : (enqueue m a b st).outside v.1 v.2 = true)
    (hold : st.outside v.1 v.2 = false) : v ∈ (enqueue m a b st).queue := by
  rcases enqueue_outside_cases h with h1 | h1
  · rw [hold] at h1; cases h1
  · unfold enqueue
    rw [if_pos ⟨h1.2.2.2, h1.2.2.1⟩]
    have : v = (a, b) := Prod.ext h1.1 h1.2.1
    simp [this]

theorem enqueue_qmarked {m : Mask} {st : FloodState} {a b : Int}
    (h : ∀ c ∈ st.queue, st.outside c.1 c.2 = true) :
    ∀ c ∈ (enqueue m a b st).queue, (enqueue m a b st).outside c.1 c.2 = true := by
  intro c hc
  by_cases hq : c ∈ st.queue
  · exact enqueue_mono a b (h c hq)
  · unfold enqueue at hc ⊢
    split at hc
    · rename_i hg
      rw [List.mem_append] at hc
      rcases hc with hc | hc
      · exact absurd hc hq
      · simp only [List.mem_singleton] at hc
        rw [if_pos hg, hc]
        exact markAt_self _ _ _
    · exact absurd hc hq

theorem nbrDeltas_small : ∀ d ∈ nbrDeltas, d.1.natAbs ≤ 1 ∧ d.2.natAbs ≤ 1 := by
  decide

theorem mem_nbrDeltas {dx dy : Int} (hx : dx.natAbs ≤ 1) (hy : dy.natAbs ≤ 1)
    (hz : ¬(dx = 0 ∧ dy = 0)) : (dx, dy) ∈ nbrDeltas := by
  have hx' : dx = -1 ∨ dx = 0 ∨ dx = 1 := by omega
  have hy' : dy = -1 ∨ dy = 0 ∨ dy = 1 := by omega
  rcases hx' with h | h | h <;> rcases hy' with h2 | h2 | h2 <;>
    subst h <;> subst h2 <;> simp_all [nbrDeltas]

theorem stepNbrs_mono {m : Mask} {px py x y : Int} :
    ∀ (ds : List (Int × Int)) (st : FloodState), st.outside x y = true →
      (stepNbrs m px py ds st).outside x y = true
  | [], _, h => h
  | d :: rest, st, h => by
      rw [stepNbrs]
      apply stepNbrs_mono rest
      split
      · exact enqueue_mono _ _ h
      · exact h

theorem stepNbrs_queue_mono {m : Mask} {px py : Int} {c : Int × Int} :
    ∀ (ds : List (Int × Int)) (st : FloodState), c ∈ st.queue →
      c ∈ (stepNbrs m px py ds st).queue
  | [], _, h => h
  | d :: rest, st, h => by
      rw [stepNbrs]
      apply stepNbrs_queue_mono rest
      split
      · exact enqueue_queue_mono _ _ h
      · exact h

theorem stepNbrs_marks {m : Mask} {px py : Int} {d : Int × Int} :
    ∀ (ds : List (Int × Int)) (st : FloodState), d ∈ ds →
      inB m (px + d.1, py + d.2) → m.inside (px + d.1) (py + d.2) = false →
      (stepNbrs m px py ds st).outside (px + d.1) (py + d.2) = true
  | [], _, hmem, _, _ => absurd hmem (List.not_mem_nil _)
  | d' :: rest, st, hmem, hin, hnf => by
      rw [stepNbrs]
      rcases List.mem_cons.mp hmem with he | he
      · subst he
        have hin' : 0 ≤ px + d.1 ∧ px + d.1 < (m.width : Int) ∧ 0 ≤ py + d.2 ∧
            py + d.2 < (m.height : Int) := hin
        rw [if_pos hin']
        exact stepNbrs_mono rest _ (enqueue_marks hnf)
      · exact stepNbrs_marks rest _ he hin hnf

theorem stepNbrs_qmarked {m : Mask} {px py : Int} :
    ∀ (ds : List (Int × Int)) (st : FloodState),
      (∀ c ∈ st.queue, st.outside c.1 c.2 = true) →
      ∀ c ∈ (stepNbrs m px py ds st).queue, (stepNbrs m px py ds st).outside c.1 c.2 = true
  | [], _, h => h
  | d :: rest, st, h => by
      rw [stepNbrs]
      apply stepNbrs_qmarked rest
      split
      · exact enqueue_qmarked h
      · exact h

theorem stepNbrs_outside_cases {m : Mask} {px py : Int} {x y : Int} :
    ∀ (ds : List (Int × Int)) (st : FloodState),
      (stepNbrs m px py ds st).outside x y = true →
      st.outside x y = true ∨
        ∃ d ∈ ds, x = px + d.1 ∧ y = py + d.2 ∧
          inB m (px + d.1, py + d.2) ∧ m.inside (px + d.1) (py + d.2) = false
  | [], _, h => Or.inl h
  | d :: rest, st, h => by
      rw [stepNbrs] at h
      rcases stepNbrs_outside_cases rest _ h with h1 | h1
      · split at h1
        · rename_i hg
          rcases enqueue_outside_cases h1 with h2 | h2
          · exact Or.inl h2
          · refine Or.inr ⟨d, List.mem_cons_self _ _, h2.1, h2.2.1, ?_, ?_⟩
            · exact ⟨hg.1, hg.2.1, hg.2.2.1, hg.2.2.2⟩
            · exact h2.2.2.1
        · exact Or.inl h1
      · rcases h1 with ⟨d', hd', rest'⟩
        exact Or.inr ⟨d', List.mem_cons_of_mem _ hd', rest'⟩

theorem stepNbrs_new_in_queue {m : Mask} {px py : Int} {v : Int × Int} :
    ∀ (ds : List (Int × Int)) (st : FloodState),
      st.outside v.1 v.2 = false → (stepNbrs m px py ds st).outside v.1 v.2 = true →
      v ∈ (stepNbrs m px py ds st).queue
  | [], st, hold, hnew => by rw [stepNbrs] at hnew ⊢; rw [hold] at hnew; cases hnew
  | d :: rest, st, hold, hnew => by
      rw [stepNbrs] at hnew ⊢
      set st' := if 0 ≤ px + d.1 ∧ px + d.1 < (m.width : Int) ∧ 0 ≤ py + d.2 ∧
          py + d.2 < (m.height : Int) then enqueue m (px + d.1) (py + d.2) st else st with hst'
      rcases Bool.eq_false_or_eq_true (st'.outside v.1 v.2) with h1 | h1
      · apply stepNbrs_queue_mono rest
        rw [hst'] at h1 ⊢
        split at h1
        · split
          · exact enqueue_marked_in_queue h1 hold
          · simp_all
        · rw [hold] at h1; cases h1
      · exact stepNbrs_new_in_queue rest st' h1 hnew

theorem enqueue_measure_le {m : Mask} {st : FloodState} {a b : Int}
    (h : inB m (a, b)) : floodMeasure m (enqueue m a b st) ≤ floodMeasure m st := by
  obtain ⟨ha, ha', hb, hb'⟩ := h
  unfold enqueue
  split
  · rename_i hg
    unfold floodMeasure unmarkedCount
    dsimp only
    have hmem : ((a.toNat, b.toNat) : ℕ × ℕ) ∈
        (Finset.range m.width ×ˢ Finset.range m.height).filter
          (fun c => st.outside (c.1 : Int) (c.2 : Int) = false) := by
      rw [Finset.mem_filter, Finset.mem_product, Finset.mem_range, Finset.mem_range]
      refine ⟨⟨by omega, by omega⟩, ?_⟩
      rw [Int.toNat_of_nonneg ha, Int.toNat_of_nonneg hb]
      exact hg.1
    have heq : (Finset.range m.width ×ˢ Finset.range m.height).filter
          (fun c => markAt st.outside a b (c.1 : Int) (c.2 : Int) = false)
        = ((Finset.range m.width ×ˢ Finset.range m.height).filter
          (fun c => st.outside (c.1 : Int) (c.2 : Int) = false)).erase (a.toNat, b.toNat) := by
      ext c
      rw [Finset.mem_erase, Finset.mem_filter, Finset.mem_filter]
      unfold markAt
      constructor
      · rintro ⟨hS, hc⟩
        split at hc
        · cases hc
        · rename_i hcond
          refine ⟨?_, hS, hc⟩
          intro hceq
          apply hcond
          rw [hceq]
          constructor
          · simp [Int.toNat_of_nonneg ha]
          · simp [Int.toNat_of_nonneg hb]
      · rintro ⟨hne, hS, hc⟩
        refine ⟨hS, ?_⟩
        rw [if_neg]
        · exact hc
        · rintro ⟨h1, h2⟩
          apply hne
          have e1 : c.1 = a.toNat := by omega
          have e2 : c.2 = b.toNat := by omega
          exact Prod.ext e1 e2
    rw [heq, Finset.card_erase_of_mem hmem]
    have hpos : 0 < ((Finset.range m.width ×ˢ Finset.range m.height).filter
        (fun c => st.outside (c.1 : Int) (c.2 : Int) = false)).card :=
      Finset.card_pos.mpr ⟨_, hmem⟩
    have hle : ∀ n q : ℕ, 0 < n → 9 * (n - 1) + (q + 1) ≤ 9 * n + q := by
      intro n q hn
      omega
    simpa [List.length_append] using hle _ _ hpos
  · exact le_refl _

theorem stepNbrs_measure_le {m : Mask} {px py : Int} :
    ∀ (ds : List (Int × Int)) (st : FloodState),
      floodMeasure m (stepNbrs m px py ds st) ≤ floodMeasure m st
  | [], st => le_refl _
  | d :: rest, st => by
      rw [stepNbrs]
      refine le_trans (stepNbrs_measure_le rest _) ?_
      split
      · rename_i hg
        exact enqueue_measure_le ⟨hg.1, hg.2.1, hg.2.2.1, hg.2.2.2⟩
      · exact le_refl _

theorem stepNbrs_sound {m : Mask} {px py : Int} (hreach : OutsideReach m (px, py))
    (ds : List (Int × Int)) (hds : ∀ d ∈ ds, d.1.natAbs ≤ 1 ∧ d.2.natAbs ≤ 1)
    (st : FloodState)
    (hsound : ∀ c : Int × Int, st.outside c.1 c.2 = true →
      inB m c ∧ m.inside c.1 c.2 = false ∧ OutsideReach m c) :
    ∀ c : Int × Int, (stepNbrs m px py ds st).outside c.1 c.2 = true →
      inB m c ∧ m.inside c.1 c.2 = false ∧ OutsideReach m c := by
  intro c hc
  rcases stepNbrs_outside_cases ds st hc with h1 | h1
  · exact hsound c h1
  · rcases h1 with ⟨d, hd, he1, he2, hinb, hnf⟩
    have hc' : c = (px + d.1, py + d.2) := Prod.ext he1 he2
    subst hc'
    refine ⟨hinb, hnf, ?_⟩
    obtain ⟨s, hsb, hsnf, hp⟩ := hreach
    refine ⟨s, hsb, hsnf, hp.tail ?_⟩
    refine ⟨hinb, hnf, ?_, ?_⟩
    · have e : px + d.1 - px = d.1 := by ring
      rw [e]
      exact (hds d hd).1
    · have e : py + d.2 - py = d.2 := by ring
      rw [e]
      exact (hds d hd).2

theorem loopInv_step {m : Mask} {out : Int → Int → Bool} {c : Int × Int}
    {rest : List (Int × Int)} (h : LoopInv m ⟨out, c :: rest⟩) :
    LoopInv m (stepNbrs m c.1 c.2 nbrDeltas ⟨out, rest⟩) := by
  have hcm : out c.1 c.2 = true := h.qmarked c (List.mem_cons_self _ _)
  have hcg := h.sound c hcm
  have hreach : OutsideReach m (c.1, c.2) := hcg.2.2
  constructor
  · exact stepNbrs_sound hreach nbrDeltas nbrDeltas_small ⟨out, rest⟩
      (fun u hu => h.sound u hu)
  · exact stepNbrs_qmarked nbrDeltas ⟨out, rest⟩
      (fun u hu => h.qmarked u (List.mem_cons_of_mem _ hu))
  · intro u hu
    rcases Bool.eq_false_or_eq_true (out u.1 u.2) with hold | hold
    · rcases h.closed u hold with hq | hcl
      · rcases List.mem_cons.mp hq with he | he
        · subst he
          right
          intro v hv
          obtain ⟨hvB, hvnf, hdx, hdy⟩ := hv
          by_cases hvc : v = u
          · subst hvc
            exact stepNbrs_mono _ _ hcm
          · have hz : ¬(v.1 - u.1 = 0 ∧ v.2 - u.2 = 0) := by
              rintro ⟨hz1, hz2⟩
              exact hvc (Prod.ext (by omega) (by omega))
            have hd : ((v.1 - u.1, v.2 - u.2) : Int × Int) ∈ nbrDeltas :=
              mem_nbrDeltas hdx hdy hz
            have e1 : u.1 + (v.1 - u.1) = v.1 := by ring
            have e2 : u.2 + (v.2 - u.2) = v.2 := by ring
            have hmk := @stepNbrs_marks m u.1 u.2 (v.1 - u.1, v.2 - u.2) nbrDeltas
              ⟨out, rest⟩ hd (by dsimp only; rw [e1, e2]; exact hvB)
              (by dsimp only; rw [e1, e2]; exact hvnf)
            dsimp only at hmk
            rw [e1, e2] at hmk
            exact hmk
        · exact Or.inl (stepNbrs_queue_mono _ _ he)
      · exact Or.inr fun v hv => stepNbrs_mono _ _ (hcl v hv)
    · exact Or.inl (stepNbrs_new_in_queue _ _ hold hu)
  · intro u hb hnf
    exact stepNbrs_mono _ _ (h.seeded u hb hnf)

theorem floodLoop_spec {m : Mask} :
    ∀ (fuel : Nat) (st : FloodState), LoopInv m st → floodMeasure m st < fuel →
      LoopInv m (floodLoop m fuel st) ∧ (floodLoop m fuel st).queue = []
  | 0, _, _, hlt => absurd hlt (Nat.not_lt_zero _)
  | fuel + 1, st, hinv, hlt => by
      obtain ⟨out, queue⟩ := st
      cases queue with
      | nil => exact ⟨hinv, rfl⟩
      | cons c rest =>
          have hstep := loopInv_step hinv
          have hms : floodMeasure m (stepNbrs m c.1 c.2 nbrDeltas ⟨out, rest⟩) ≤
              floodMeasure m ⟨out, rest⟩ := stepNbrs_measure_le _ _
          have hm2 : floodMeasure m ⟨out, c :: rest⟩ = floodMeasure m ⟨out, rest⟩ + 1 := by
            unfold floodMeasure unmarkedCount
            dsimp only
            rw [List.length_cons]
            omega
          have hlt' : floodMeasure m (stepNbrs m c.1 c.2 nbrDeltas ⟨out, rest⟩) < fuel := by
            omega
          exact floodLoop_spec fuel _ hstep hlt'

theorem enqueue_seedInv {m : Mask} {st : FloodState} {a b : Int}
    (hin : inB m (a, b)) (hbd : isBorderCell m (a, b)) (h : SeedInv m st) :
    SeedInv m (enqueue m a b st) := by
  constructor
  · intro c hc
    rcases enqueue_outside_cases hc with hold | hnew
    · exact h.sound c hold
    · obtain ⟨he1, he2, hnf, _⟩ := hnew
      have : c = (a, b) := Prod.ext he1 he2
      subst this
      exact ⟨hin, hnf, hbd⟩
  · intro c hc
    rcases enqueue_outside_cases hc with hold | hnew
    · exact enqueue_queue_mono _ _ (h.inqueue c hold)
    · refine enqueue_marked_in_queue hc ?_
      rw [hnew.1, hnew.2.1]
      exact hnew.2.2.2
  · exact enqueue_qmarked h.qmarked

theorem seedTopBottom_mono {m : Mask} {x y : Int} :
    ∀ (xs : List Int) (st : FloodState), st.outside x y = true →
      (seedTopBottom m xs st).outside x y = true
  | [], _, h => h
  | _ :: rest, _, h =>
      seedTopBottom_mono rest _ (enqueue_mono _ _ (enqueue_mono _ _ h))

theorem seedLeftRight_mono {m : Mask} {x y : Int} :
    ∀ (ys : List Int) (st : FloodState), st.outside x y = true →
      (seedLeftRight m ys st).outside x y = true
  | [], _, h => h
  | _ :: rest, _, h =>
      seedLeftRight_mono rest _ (enqueue_mono _ _ (enqueue_mono _ _ h))

theorem seedTopBottom_seedInv {m : Mask} (hH : 1 ≤ m.height) :
    ∀ (xs : List Int) (st : FloodState), (∀ x ∈ xs, 0 ≤ x ∧ x < (m.width : Int)) →
      SeedInv m st → SeedInv m (seedTopBottom m xs st)
  | [], _, _, h => h
  | x0 :: rest, st, hxs, h => by
      have hx := hxs x0 (List.mem_cons_self _ _)
      have hH' : (0 : Int) < (m.height : Int) := by exact_mod_cast hH
      have h1 : inB m (x0, 0) := ⟨hx.1, hx.2, le_refl 0, hH'⟩
      have h2 : inB m (x0, (m.height : Int) - 1) := ⟨hx.1, hx.2, by omega, by omega⟩
      refine seedTopBottom_seedInv hH rest _ (fun x hx' => hxs x (List.mem_cons_of_mem _ hx')) ?_
      exact enqueue_seedInv h2 ⟨h2, Or.inr (Or.inr (Or.inr rfl))⟩
        (enqueue_seedInv h1 ⟨h1, Or.inr (Or.inr (Or.inl rfl))⟩ h)

theorem seedLeftRight_seedInv {m : Mask} (hW : 1 ≤ m.width) :
    ∀ (ys : List Int) (st : FloodState), (∀ y ∈ ys, 0 ≤ y ∧ y < (m.height : Int)) →
      SeedInv m st → SeedInv m (seedLeftRight m ys st)
  | [], _, _, h => h
  | y0 :: rest, st, hys, h => by
      have hy := hys y0 (List.mem_cons_self _ _)
      have hW' : (0 : Int) < (m.width : Int) := by exact_mod_cast hW
      have h1 : inB m (0, y0) := ⟨le_refl 0, hW', hy.1, hy.2⟩
      have h2 : inB m ((m.width : Int) - 1, y0) := ⟨by omega, by omega, hy.1, hy.2⟩
      refine seedLeftRight_seedInv hW rest _ (fun y hy' => hys y (List.mem_cons_of_mem _ hy')) ?_
      exact enqueue_seedInv h2 ⟨h2, Or.inr (Or.inl rfl)⟩
        (enqueue_seedInv h1 ⟨h1, Or.inl rfl⟩ h)

theorem seedTopBottom_marks {m : Mask} {x0 : Int} :
    ∀ (xs : List Int) (st : FloodState), x0 ∈ xs →
      (m.inside x0 0 = false → (seedTopBottom m xs st).outside x0 0 = true) ∧
      (m.inside x0 ((m.height : Int) - 1) = false →
        (seedTopBottom m xs st).outside x0 ((m.height : Int) - 1) = true)
  | [], _, hmem => absurd hmem (List.not_mem_nil _)
  | x1 :: rest, st, hmem => by
      rcases List.mem_cons.mp hmem with he | he
      · subst he
        constructor
        · intro hnf
          exact seedTopBottom_mono rest _ (enqueue_mono _ _ (enqueue_marks hnf))
        · intro hnf
          exact seedTopBottom_mono rest _ (enqueue_marks hnf)
      · exact seedTopBottom_marks rest _ he

theorem seedLeftRight_marks {m : Mask} {y0 : Int} :
    ∀ (ys : List Int) (st : FloodState), y0 ∈ ys →
      (m.inside 0 y0 = false → (seedLeftRight m ys st).outside 0 y0 = true) ∧
      (m.inside ((m.width : Int) - 1) y0 = false →
        (seedLeftRight m ys st).outside ((m.width : Int) - 1) y0 = true)
  | [], _, hmem => absurd hmem (List.not_mem_nil _)
  | y1 :: rest, st, hmem => by
      rcases List.mem_cons.mp hmem with he | he
      · subst he
        constructor
        · intro hnf
          exact seedLeftRight_mono rest _ (enqueue_mono _ _ (enqueue_marks hnf))
        · intro hnf
          exact seedLeftRight_mono rest _ (enqueue_marks hnf)
      · exact seedLeftRight_marks rest _ he

theorem mem_intRange {n : Nat} {a : Int} : a ∈ intRange n ↔ 0 ≤ a ∧ a < (n : Int) := by
  unfold intRange
  rw [List.mem_map]
  constructor
  · rintro ⟨i, hi, rfl⟩
    rw [List.mem_range] at hi
    omega
  · rintro ⟨h0, hn⟩
    exact ⟨a.toNat, by rw [List.mem_range]; omega, by omega⟩

theorem enqueue_len {m : Mask} {a b : Int} (st : FloodState) :
    (enqueue m a b st).queue.length ≤ st.queue.length + 1 := by
  unfold enqueue
  split
  · simp
  · omega

theorem seedTopBottom_len {m : Mask} :
    ∀ (xs : List Int) (st : FloodState),
      (seedTopBottom m xs st).queue.length ≤ st.queue.length + 2 * xs.length
  | [], st => by simp [seedTopBottom]
  | x0 :: rest, st => by
      rw [seedTopBottom]
      refine le_trans (seedTopBottom_len rest _) ?_
      have h1 := @enqueue_len m x0 ((m.height : Int) - 1) (enqueue m x0 0 st)
      have h2 := @enqueue_len m x0 0 st
      simp only [List.length_cons]
      omega

theorem seedLeftRight_len {m : Mask} :
    ∀ (ys : List Int) (st : FloodState),
      (seedLeftRight m ys st).queue.length ≤ st.queue.length + 2 * ys.length
  | [], st => by simp [seedLeftRight]
  | y0 :: rest, st => by
      rw [seedLeftRight]
      refine le_trans (seedLeftRight_len rest _) ?_
      have h1 := @enqueue_len m ((m.width : Int) - 1) y0 (enqueue m 0 y0 st)
      have h2 := @enqueue_len m 0 y0 st
      simp only [List.length_cons]
      omega

theorem intRange_len (n : Nat) : (intRange n).length = n := by
  simp [intRange]

theorem unmarkedCount_le (m : Mask) (st : FloodState) :
    unmarkedCount m st ≤ m.width * m.height := by
  unfold unmarkedCount
  refine le_trans (Finset.card_filter_le _ _) ?_
  rw [Finset.card_product, Finset.card_range, Finset.card_range]

theorem seedBorder_measure (m : Mask) : floodMeasure m (seedBorder m) < floodFuel m := by
  unfold floodMeasure floodFuel
  have h1 := unmarkedCount_le m (seedBorder m)
  have h2 : (seedBorder m).queue.length ≤ 2 * (m.width + m.height) := by
    unfold seedBorder
    refine le_trans (seedLeftRight_len _ _) ?_
    have h3 := @seedTopBottom_len m (intRange m.width) (⟨fun _ _ => false, []⟩ : FloodState)
    simp only [intRange_len, List.length_nil] at h3 ⊢
    omega
  have h4 : 9 * m.width * m.height = 9 * (m.width * m.height) := by ring
  omega

theorem seedBorder_seedInv {m : Mask} (hW : 1 ≤ m.width) (hH : 1 ≤ m.height) :
    SeedInv m (seedBorder m) := by
  unfold seedBorder
  refine seedLeftRight_seedInv hW _ _ (fun y hy => mem_intRange.mp hy) ?_
  refine seedTopBottom_seedInv hH _ _ (fun x hx => mem_intRange.mp hx) ?_
  constructor
  · intro c hc
    cases hc
  · intro c hc
    cases hc
  · intro c hc
    cases hc

theorem seedBorder_covers {m : Mask} :
    ∀ c : Int × Int, isBorderCell m c → m.inside c.1 c.2 = false →
      (seedBorder m).outside c.1 c.2 = true := by
  intro c hb hnf
  obtain ⟨hin, hdisj⟩ := hb
  unfold seedBorder
  rcases hdisj with h | h | h | h
  · have hy : c.2 ∈ intRange m.height := mem_intRange.mpr ⟨hin.2.2.1, hin.2.2.2⟩
    rw [h] at hnf ⊢
    exact (seedLeftRight_marks _ _ hy).1 hnf
  · have hy : c.2 ∈ intRange m.height := mem_intRange.mpr ⟨hin.2.2.1, hin.2.2.2⟩
    rw [h] at hnf ⊢
    exact (seedLeftRight_marks _ _ hy).2 hnf
  · have hx : c.1 ∈ intRange m.width := mem_intRange.mpr ⟨hin.1, hin.2.1⟩
    rw [h] at hnf ⊢
    exact seedLeftRight_mono _ _ ((seedTopBottom_marks _ _ hx).1 hnf)
  · have hx : c.1 ∈ intRange m.width := mem_intRange.mpr ⟨hin.1, hin.2.1⟩
    rw [h] at hnf ⊢
    exact seedLeftRight_mono _ _ ((seedTopBottom_marks _ _ hx).2 hnf)

theorem loopInv_of_seed {m : Mask} {st : FloodState} (h : SeedInv m st)
    (hcov : ∀ c : Int × Int, isBorderCell m c → m.inside c.1 c.2 = false →
      st.outside c.1 c.2 = true) : LoopInv m st := by
  constructor
  · intro c hc
    obtain ⟨hin, hnf, hbd⟩ := h.sound c hc
    exact ⟨hin, hnf, c, hbd, hnf, Relation.ReflTransGen.refl⟩
  · exact h.qmarked
  · intro c hc
    exact Or.inl (h.inqueue c hc)
  · exact hcov

theorem floodFill_sound_complete {m : Mask} (hW : 1 ≤ m.width) (hH : 1 ≤ m.height) :
    (∀ c : Int × Int, floodFill m c.1 c.2 = true →
      inB m c ∧ m.inside c.1 c.2 = false ∧ OutsideReach m c) ∧
    (∀ c : Int × Int, OutsideReach m c → floodFill m c.1 c.2 = true) := by
  have hinv : LoopInv m (seedBorder m) :=
    loopInv_of_seed (seedBorder_seedInv hW hH) seedBorder_covers
  obtain ⟨hfin, hq⟩ :=
    floodLoop_spec (floodFuel m) (seedBorder m) hinv (seedBorder_measure m)
  constructor
  · intro c hc
    exact hfin.sound c hc
  · rintro c ⟨s, hb, hnf, hp⟩
    induction hp with
    | refl => exact hfin.seeded s hb hnf
    | tail hp' hstep ih =>
        rcases hfin.closed _ ih with hmem | hcl
        · rw [hq] at hmem
          cases hmem
        · exact hcl _ hstep

theorem reach_of_noFill {m : Mask}
    (hnf : ∀ c : Int × Int, inB m c → m.inside c.1 c.2 = false) :
    ∀ c : Int × Int, inB m c → OutsideReach m c := by
  intro c hc
  obtain ⟨h1, h2, h3, h4⟩ := hc
  have hs : inB m (c.1, 0) := ⟨h1, h2, le_refl 0, by omega⟩
  refine ⟨(c.1, 0), ⟨hs, Or.inr (Or.inr (Or.inl rfl))⟩, hnf _ hs, ?_⟩
  have aux : ∀ k : Nat, (k : Int) ≤ c.2 →
      Relation.ReflTransGen (adjStep m) (c.1, 0) (c.1, (k : Int)) := by
    intro k
    induction k with
    | zero => intro _; exact Relation.ReflTransGen.refl
    | succ k ih =>
        intro hk
        have hk' : (k : Int) ≤ c.2 := by push_cast at hk ⊢; omega
        refine (ih hk').tail ?_
        have hkin : inB m (c.1, ((k : Nat) + 1 : Int)) := by
          refine ⟨h1, h2, by positivity, ?_⟩
          push_cast at hk
          omega
        refine ⟨by push_cast at hkin ⊢; exact hkin, hnf _ (by push_cast at hkin ⊢; exact hkin), ?_, ?_⟩
        · simp
        · push_cast
          have e : ((k : Int) + 1) - (k : Int) = 1 := by ring
          rw [e]
          decide
  have := aux c.2.toNat (by omega)
  have e : ((c.2.toNat : Nat) : Int) = c.2 := by omega
  rw [e] at this
  exact this

/-- Claim C1: for every mask (the source clamps both dimensions to at least
1), the flood-fill classification labels a non-fill cell OUTSIDE iff it is
reachable from a non-fill border cell by an 8-connected path of non-fill
cells; every unreachable non-fill cell is HOLE; each in-bounds cell gets
exactly one of the three labels, with FILL exactly the mask's true cells; and
a mask with zero fill pixels is classified all-OUTSIDE (the computation is
total, so no error can occur). -/
theorem flood_labels_reachability (m : Mask) (hW : 1 ≤ m.width) (hH : 1 ≤ m.height) :
    FloodSpec m := by
  obtain ⟨hsound, hcomp⟩ := floodFill_sound_complete hW hH
  refine ⟨?_, ?_, ?_, ?_⟩
  · intro c _
    unfold regionOf
    rcases Bool.eq_false_or_eq_true (m.inside c.1 c.2) with hi | hi
    · simp [hi]
    · rcases Bool.eq_false_or_eq_true (floodFill m c.1 c.2) with hf | hf <;> simp [hi, hf]
  · intro c _
    unfold regionOf
    rcases Bool.eq_false_or_eq_true (m.inside c.1 c.2) with hi | hi
    · simp [hi]
    · rcases Bool.eq_false_or_eq_true (floodFill m c.1 c.2) with hf | hf
      · simp only [hi, hf, if_false, if_true]
        constructor
        · intro _
          exact ⟨trivial, (hsound c hf).2.2⟩
        · intro _
          rfl
      · simp only [hi, hf, if_false]
        constructor
        · intro h
          cases h
        · rintro ⟨_, hr⟩
          have := hcomp c hr
          rw [hf] at this
          cases this
  · intro c _
    unfold regionOf
    rcases Bool.eq_false_or_eq_true (m.inside c.1 c.2) with hi | hi
    · simp [hi]
    · rcases Bool.eq_false_or_eq_true (floodFill m c.1 c.2) with hf | hf
      · simp only [hi, hf, if_false, if_true]
        constructor
        · intro h
          cases h
        · rintro ⟨_, hr⟩
          exact absurd ((hsound c hf).2.2) hr
      · simp only [hi, hf, if_false]
        constructor
        · intro _
          refine ⟨trivial, fun hr => ?_⟩
          have := hcomp c hr
          rw [hf] at this
          cases this
        · intro _
          rfl
  · intro hall c hc
    have hr := reach_of_noFill hall c hc
    have hf := hcomp c hr
    unfold regionOf
    simp [hall c hc, hf]

/-- Witness for claim C1 at the concrete 3x3 single-dot mask. -/
theorem flood_labels_reachability_witness :
    1 ≤ mask3.width ∧ 1 ≤ mask3.height ∧ FloodSpec mask3 :=
  ⟨by decide, by decide, flood_labels_reachability mask3 (by decide) (by decide)⟩

theorem tick_paused (cfg : SimConfig) (T : Trig) (m : Mask) (edges : List EdgePoint)
    (rnd : Nat → ℚ) (dtRaw : ℚ) (st : SimState) (h : cfg.paused = true) :
    tick cfg T m edges rnd dtRaw st = st := by
  unfold tick
  rw [if_pos h]

theorem tick_noEdges (cfg : SimConfig) (T : Trig) (m : Mask)
    (rnd : Nat → ℚ) (dtRaw : ℚ) (st : SimState) :
    tick cfg T m [] rnd dtRaw st = st := by
  unfold tick
  split
  · rfl
  · rfl

theorem spawnLoop_len_le {cfg : SimConfig} {T : Trig} {edges : List EdgePoint}
    {rnd : Nat → ℚ} :
    ∀ (n k : Nat) (arr : List Particle), arr.length ≤ cfg.maxParticles →
      (spawnLoop cfg T edges rnd n k arr).length ≤ cfg.maxParticles
  | 0, _, _, h => h
  | n + 1, k, arr, h => by
      rw [spawnLoop]
      split
      · rename_i hlt
        refine spawnLoop_len_le n (k + 7) _ ?_
        rw [List.length_append]
        simpa using hlt
      · exact h

theorem spawnLoop_full {cfg : SimConfig} {T : Trig} {edges : List EdgePoint}
    {rnd : Nat → ℚ} :
    ∀ (n k : Nat) (arr : List Particle), cfg.maxParticles ≤ arr.length →
      spawnLoop cfg T edges rnd n k arr = arr
  | 0, _, _, _ => rfl
  | n + 1, k, arr, h => by
      rw [spawnLoop]
      rw [if_neg (by omega)]

theorem updateParticles_len_le (cfg : SimConfig) (m : Mask) (dt : ℚ)
    (arr : List Particle) : (updateParticles cfg m dt arr).length ≤ arr.length := by
  unfold updateParticles
  refine le_trans (List.length_filter_le _ _) ?_
  rw [List.length_map]

theorem trim_len_le (cap : Nat) (arr : List Particle) :
    (if arr.length > cap then arr.drop (arr.length - cap) else arr).length ≤ cap := by
  split
  · rw [List.length_drop]
    omega
  · omega

theorem tickPoolBound (cfg : SimConfig) (T : Trig) (m : Mask) (edges : List EdgePoint)
    (rnd : Nat → ℚ) (dtRaw : ℚ) (st : SimState)
    (hp : cfg.paused = false) (he : edges ≠ []) :
    (tick cfg T m edges rnd dtRaw st).particles.length ≤ cfg.maxParticles := by
  unfold tick
  rw [if_neg (show ¬(cfg.paused = true) by simp [hp])]
  dsimp only
  rw [if_neg (show ¬(edges.length = 0) by simpa using he)]
  dsimp only
  refine le_trans (updateParticles_len_le _ _ _ _) ?_
  exact spawnLoop_len_le _ _ _ (trim_len_le _ _)

theorem spawnAux_spec (rate : ℚ) :
    ∀ (dts : List ℚ) (c : ℚ), ⌊c⌋ = 0 →
      spawnRequestsAux rate dts c = ⌊rate * dts.sum + c⌋ ∧
      spawnCarryAux rate dts c = rate * dts.sum + c - ⌊rate * dts.sum + c⌋ := by
  intro dts
  induction dts with
  | nil =>
      intro c hc
      constructor
      · simp [spawnRequestsAux, hc]
      · simp [spawnCarryAux, hc]
  | cons dt rest ih =>
      intro c hc
      have key : rate * rest.sum + (rate * dt + c - (⌊rate * dt + c⌋ : ℚ)) =
          rate * (dt :: rest).sum + c - ((⌊rate * dt + c⌋ : Int) : ℚ) := by
        rw [List.sum_cons]
        ring
      have hc' : ⌊rate * dt + c - ((⌊rate * dt + c⌋ : Int) : ℚ)⌋ = 0 := by
        rw [Int.floor_sub_int]
        omega
      obtain ⟨ih1, ih2⟩ := ih _ hc'
      constructor
      · rw [spawnRequestsAux]
        dsimp only [spawnAcc]
        rw [ih1, key, Int.floor_sub_int]
        omega
      · rw [spawnCarryAux]
        dsimp only [spawnAcc]
        rw [ih2, key, Int.floor_sub_int]
        push_cast
        ring

theorem tick_rate_zero_fix (cfg : SimConfig) (T : Trig) (m : Mask)
    (edges : List EdgePoint) (rnd : Nat → ℚ) (d : ℚ) :
    tick { cfg with emissionRate := 0 } T m edges rnd d ⟨[], 0⟩ = ⟨[], 0⟩ := by
  unfold tick
  split
  · rfl
  · dsimp only
    split
    · rfl
    · simp [spawnAcc, spawnLoop, updateParticles]

/-- Claim C4: the spawn accounting requests `floor(emissionRate·dt + carry)`
spawns per tick and keeps the remainder as the new carry, so over any
sequence of (clamped) tick durations starting from carry 0 the cumulative
request count is exactly `floor(emissionRate · Σ dt)` — within one particle
of `emissionRate · Σ dt`, so truncation introduces no long-run bias — and
with `emissionRate = 0` the pool stays empty over any tick sequence. -/
theorem spawn_accounting_floor_sum :
    (∀ (rate : ℚ) (dts : List ℚ),
      spawnRequestsAux rate dts 0 = ⌊rate * dts.sum⌋ ∧
      spawnCarryAux rate dts 0 = rate * dts.sum - ⌊rate * dts.sum⌋ ∧
      rate * dts.sum - 1 < ((spawnRequestsAux rate dts 0 : Int) : ℚ) ∧
      ((spawnRequestsAux rate dts 0 : Int) : ℚ) ≤ rate * dts.sum) ∧
    (∀ (cfg : SimConfig) (T : Trig) (m : Mask) (edges : List EdgePoint)
        (rnd : Nat → ℚ) (dts : List ℚ),
      dts.foldl (fun s d => tick { cfg with emissionRate := 0 } T m edges rnd d s)
        ⟨[], 0⟩ = ⟨[], 0⟩) := by
  constructor
  · intro rate dts
    obtain ⟨h1, h2⟩ := spawnAux_spec rate dts 0 (by simp)
    rw [add_zero] at h1 h2
    refine ⟨h1, h2, ?_, ?_⟩
    · rw [h1]
      exact Int.sub_one_lt_floor _
    · rw [h1]
      exact Int.floor_le _
  · intro cfg T m edges rnd dts
    induction dts with
    | nil => rfl
    | cons d rest ih =>
        rw [List.foldl_cons, tick_rate_zero_fix]
        exact ih

/-- Claim C3 counterexample: a tick whose edge list is empty returns before
the budget trim, so with `maxParticles = 0` and one live particle the pool
still holds 1 > 0 particles at the end of the tick. -/
theorem tick_cap_claim_false_on_early_return :
    (tick cfgZeroCap trigConst maskEmpty10 [] rndZero 1 ⟨[pOrigin], 0⟩).particles.length = 1 ∧
    cfgZeroCap.maxParticles = 0 := by
  constructor
  · rfl
  · rfl

/-- Claim C3 (amended): whenever a tick reaches its spawn/update phase (it is
not paused and the edge list is nonempty), the pool holds at most
`maxParticles` live particles at the end of the tick, for any emission rate,
any duration and any initial pool state; an early-returning tick leaves the
pool unchanged (`tick_paused` / `tick_noEdges`). -/
theorem tick_live_count_le_max (cfg : SimConfig) (T : Trig) (m : Mask)
    (edges : List EdgePoint) (rnd : Nat → ℚ) (dtRaw : ℚ) (st : SimState)
    (hp : cfg.paused = false) (he : edges ≠ []) :
    (tick cfg T m edges rnd dtRaw st).particles.length ≤ cfg.maxParticles :=
  tickPoolBound cfg T m edges rnd dtRaw st hp he

/-- Witness for the amended claim C3 at a concrete tick. -/
theorem tick_live_count_le_max_witness :
    cfgCull.paused = false ∧ edgesOne ≠ [] ∧
    (tick cfgCull trigConst maskDot5 edgesOne rndZero 1
      ⟨[pOnFill, pOffFill], 0⟩).particles.length ≤ cfgCull.maxParticles :=
  ⟨by decide, by decide,
    tick_live_count_le_max cfgCull trigConst maskDot5 edgesOne rndZero 1
      ⟨[pOnFill, pOffFill], 0⟩ (by decide) (by decide)⟩

/-- Claim C7 counterexample: with `maxParticles = 1`, a nonzero emission rate
(the accounting requests one spawn this tick) and one live particle, the tick
leaves the pool holding only the aged existing particle: the spawn is
skipped, nothing is evicted, and no new particle is inserted. -/
theorem max_one_no_eviction :
    (tick cfgCapOne trigConst maskEmpty10 edgesOne rndZero (1 / 100)
        ⟨[pResting], 0⟩).particles =
      [integrate cfgCapOne (min (1 / 20 : ℚ) (1 / 100)) pResting] ∧
    (integrate cfgCapOne (min (1 / 20 : ℚ) (1 / 100)) pResting).life < pResting.ttl ∧
    (spawnAcc cfgCapOne.emissionRate 0 (min (1 / 20 : ℚ) (1 / 100))).1 = 1 := by
  have hkeep : keepAfterUpdate maskEmpty10
      (integrate cfgCapOne (min (1 / 20 : ℚ) (1 / 100)) pResting) = true := by
    unfold keepAfterUpdate integrate truncJS
    norm_num [pResting, cfgCapOne, maskEmpty10, min_def]
  refine ⟨?_, ?_, ?_⟩
  · unfold tick
    rw [if_neg (show ¬(cfgCapOne.paused = true) by decide)]
    dsimp only
    rw [if_neg (show ¬(edgesOne.length = 0) by decide)]
    dsimp only
    rw [if_neg (show ¬(([pResting] : List Particle).length > cfgCapOne.maxParticles) by decide)]
    rw [spawnLoop_full _ _ _ (by decide)]
    unfold updateParticles
    rw [List.map_singleton, List.filter_cons, if_pos hkeep, List.filter_nil]
  · unfold integrate
    dsimp only
    norm_num [pResting, min_def]
  · unfold spawnAcc
    norm_num [cfgCapOne, min_def]

/-- Claim C7 (amended): with `maxParticles = 1` the pool never exceeds one
particle, and when the pool already holds a live particle a tick spawns
nothing at all — the existing particle is never evicted to make room; the
tick's result is exactly the integrated existing particle (or nothing, if it
expired or was culled). -/
theorem tick_max_one_bound_no_spawn (cfg : SimConfig) (T : Trig) (m : Mask)
    (edges : List EdgePoint) (rnd : Nat → ℚ) (dtRaw : ℚ) (st : SimState)
    (hmax : cfg.maxParticles = 1) (hlen : st.particles.length ≤ 1) :
    (tick cfg T m edges rnd dtRaw st).particles.length ≤ 1 ∧
    (∀ p : Particle, cfg.paused = false → edges ≠ [] → st.particles = [p] →
      (tick cfg T m edges rnd dtRaw st).particles =
        if keepAfterUpdate m (integrate cfg (min (1 / 20 : ℚ) dtRaw) p) = true then
          [integrate cfg (min (1 / 20 : ℚ) dtRaw) p]
        else []) := by
  constructor
  · rcases Bool.eq_false_or_eq_true cfg.paused with hp | hp
    · rw [tick_paused cfg T m edges rnd dtRaw st hp]
      exact hlen
    · rcases List.eq_nil_or_concat edges with he | he
      · rw [he, tick_noEdges]
        exact hlen
      · have hne : edges ≠ [] := by
          rcases he with ⟨l, a, rfl⟩
          simp
        rw [← hmax]
        exact tickPoolBound cfg T m edges rnd dtRaw st hp hne
  · intro p hp hne hone
    unfold tick
    rw [if_neg (show ¬(cfg.paused = true) by simp [hp])]
    dsimp only
    rw [if_neg (show ¬(edges.length = 0) by simpa using hne)]
    dsimp only
    rw [hone]
    rw [if_neg (by rw [hmax]; simp)]
    rw [spawnLoop_full _ _ _ (by rw [hmax]; simp)]
    unfold updateParticles
    rw [List.map_singleton]
    rcases Bool.eq_false_or_eq_true
        (keepAfterUpdate m (integrate cfg (min (1 / 20 : ℚ) dtRaw) p)) with hk | hk
    · rw [if_pos hk]
      rw [List.filter_cons, if_pos hk, List.filter_nil]
    · rw [if_neg (by rw [hk]; simp)]
      rw [List.filter_cons, if_neg (by rw [hk]; simp), List.filter_nil]

/-- Witness for the amended claim C7 at a concrete tick. -/
theorem tick_max_one_bound_no_spawn_witness :
    cfgCapOne.maxParticles = 1 ∧ ([pResting] : List Particle).length ≤ 1 ∧
    ((tick cfgCapOne trigConst maskEmpty10 edgesOne rndZero (1 / 100)
        ⟨[pResting], 0⟩).particles.length ≤ 1 ∧
      (∀ p : Particle, cfgCapOne.paused = false → edgesOne ≠ [] →
        ([pResting] : List Particle) = [p] →
        (tick cfgCapOne trigConst maskEmpty10 edgesOne rndZero (1 / 100)
            ⟨[pResting], 0⟩).particles =
          if keepAfterUpdate maskEmpty10
              (integrate cfgCapOne (min (1 / 20 : ℚ) (1 / 100)) p) = true then
            [integrate cfgCapOne (min (1 / 20 : ℚ) (1 / 100)) p]
          else [])) :=
  ⟨by decide, by decide,
    tick_max_one_bound_no_spawn cfgCapOne trigConst maskEmpty10 edgesOne rndZero
      (1 / 100) ⟨[pResting], 0⟩ (by decide) (by decide)⟩

theorem spawnLoop_zero (cfg : SimConfig) (T : Trig) (edges : List EdgePoint)
    (rnd : Nat → ℚ) (k : Nat) (arr : List Particle) :
    spawnLoop cfg T edges rnd 0 k arr = arr := rfl

/-- Claim C5 (code finding): the component's props type declares no
`allowInside` option, and the update-phase cull runs unconditionally: a
particle whose truncated position samples a fill cell is removed within the
same tick even though its lifetime is not over, while an identical particle
over background survives. Concretely, of two particles integrated by one
tick over `maskDot5`, the one landing on the fill pixel (2,2) is culled and
the other is kept. -/
theorem tick_culls_fill_unconditionally :
    (tick cfgCull trigConst maskDot5 edgesOne rndZero 1
        ⟨[pOnFill, pOffFill], 0⟩).particles =
      [integrate cfgCull (min (1 / 20 : ℚ) 1) pOffFill] ∧
    maskDot5.inside (truncJS (integrate cfgCull (min (1 / 20 : ℚ) 1) pOnFill).x)
      (truncJS (integrate cfgCull (min (1 / 20 : ℚ) 1) pOnFill).y) = true ∧
    (integrate cfgCull (min (1 / 20 : ℚ) 1) pOnFill).life <
      (integrate cfgCull (min (1 / 20 : ℚ) 1) pOnFill).ttl ∧
    keepAfterUpdate maskDot5 (integrate cfgCull (min (1 / 20 : ℚ) 1) pOnFill) = false ∧
    keepAfterUpdate maskDot5 (integrate cfgCull (min (1 / 20 : ℚ) 1) pOffFill) = true := by
  have hkeep1 : keepAfterUpdate maskDot5
      (integrate cfgCull (min (1 / 20 : ℚ) 1) pOnFill) = false := by
    unfold keepAfterUpdate integrate truncJS
    norm_num [pOnFill, cfgCull, maskDot5, min_def]
  have hkeep2 : keepAfterUpdate maskDot5
      (integrate cfgCull (min (1 / 20 : ℚ) 1) pOffFill) = true := by
    unfold keepAfterUpdate integrate truncJS
    norm_num [pOffFill, cfgCull, maskDot5, min_def]
  refine ⟨?_, ?_, ?_, hkeep1, hkeep2⟩
  · unfold tick
    rw [if_neg (show ¬(cfgCull.paused = true) by decide)]
    dsimp only
    rw [if_neg (show ¬(edgesOne.length = 0) by decide)]
    dsimp only
    rw [if_neg (show ¬(([pOnFill, pOffFill] : List Particle).length > cfgCull.maxParticles)
      by decide)]
    have hacc : (spawnAcc cfgCull.emissionRate 0 (min (1 / 20 : ℚ) 1)).1 = 0 := by
      unfold spawnAcc
      norm_num [cfgCull]
    rw [hacc, Int.toNat_zero, spawnLoop_zero]
    unfold updateParticles
    rw [List.map_cons, List.map_cons, List.map_nil, List.filter_cons, if_neg (by
      rw [hkeep1]; simp), List.filter_cons, if_pos hkeep2, List.filter_nil]
  · unfold integrate truncJS
    norm_num [pOnFill, cfgCull, maskDot5, min_def]
  · unfold integrate
    dsimp only
    norm_num [pOnFill, min_def]

/-- Claim C8 counterexample: a particle drawn at age 0 has drawn radius
`1.4 × r`, not its full configured radius `r`. -/
theorem draw_radius_at_spawn_not_full :
    pOrigin.life = 0 ∧ (drawParticle pOrigin).radius = (7 / 5) * pOrigin.r ∧
    (drawParticle pOrigin).radius ≠ pOrigin.r := by
  refine ⟨rfl, ?_, ?_⟩
  · unfold drawParticle
    dsimp only
    norm_num [pOrigin]
  · unfold drawParticle
    dsimp only
    norm_num [pOrigin]

/-- Claim C8 (amended): the drawn circle's radius interpolates linearly from
`1.4 ×` the configured radius at spawn down to `0.6 ×` it at expiry, the
opacity fades linearly from 1 at spawn to 0 at expiry, and the batch uses
additive (`lighter`) blending, restoring source-over blending and alpha 1
afterwards. -/
theorem draw_radius_interpolation (p : Particle) (h0 : 0 ≤ p.life) (h1 : p.life < p.ttl) :
    (drawParticle p).radius =
      (1 - p.life / p.ttl) * ((7 / 5) * p.r) + (p.life / p.ttl) * ((3 / 5) * p.r) ∧
    (drawParticle p).alpha = 1 - p.life / p.ttl ∧
    (p.life = 0 → (drawParticle p).radius = (7 / 5) * p.r) ∧
    (drawFrame [p]).blend = .lighter ∧
    (drawFrame [p]).finalBlend = .sourceOver ∧ (drawFrame [p]).finalAlpha = 1 := by
  have httl : 0 < p.ttl := lt_of_le_of_lt h0 h1
  have ht0 : 0 ≤ p.life / p.ttl := div_nonneg h0 (le_of_lt httl)
  have ht1 : p.life / p.ttl < 1 := (div_lt_one httl).mpr h1
  refine ⟨?_, ?_, ?_, rfl, rfl, rfl⟩
  · unfold drawParticle
    dsimp only
    ring
  · unfold drawParticle
    dsimp only
    rw [min_eq_right (by linarith), max_eq_right (by linarith)]
  · intro hz
    unfold drawParticle
    dsimp only
    rw [hz, zero_div]
    ring

/-- Witness for the amended claim C8 at a concrete particle. -/
theorem draw_radius_interpolation_witness :
    0 ≤ pOrigin.life ∧ pOrigin.life < pOrigin.ttl ∧
    ((drawParticle pOrigin).radius =
        (1 - pOrigin.life / pOrigin.ttl) * ((7 / 5) * pOrigin.r) +
          (pOrigin.life / pOrigin.ttl) * ((3 / 5) * pOrigin.r) ∧
      (drawParticle pOrigin).alpha = 1 - pOrigin.life / pOrigin.ttl ∧
      (pOrigin.life = 0 → (drawParticle pOrigin).radius = (7 / 5) * pOrigin.r) ∧
      (drawFrame [pOrigin]).blend = .lighter ∧
      (drawFrame [pOrigin]).finalBlend = .sourceOver ∧
      (drawFrame [pOrigin]).finalAlpha = 1) :=
  ⟨le_refl 0, zero_lt_one, draw_radius_interpolation pOrigin (le_refl 0) zero_lt_one⟩

/-- Claim C9 (code finding): the component's hardcoded fallback values
disagree with the repository's `SPARKLE_DEFAULTS` record (which matches the
claim) on `emissionRate`, `speed`, `particleSize`, `ttl` and `canvasBleed`,
agreeing only on `gravity`, `maxParticles`, `paused` and `spread`; the
defaults file also declares `allowInside := false`, an option the component's
props do not include at all. -/
theorem defaults_file_component_mismatch :
    componentFallbacks.emissionRate = 180 ∧ SPARKLE_DEFAULTS.emissionRate = 150 ∧
    componentFallbacks.speed = 120 ∧ SPARKLE_DEFAULTS.speed = 100 ∧
    componentFallbacks.sizeMin = 0.7 ∧ componentFallbacks.sizeMax = 2.0 ∧
    SPARKLE_DEFAULTS.sizeMin = 0.5 ∧ SPARKLE_DEFAULTS.sizeMax = 1.2 ∧
    componentFallbacks.ttlMin = 0.7 ∧ componentFallbacks.ttlMax = 1.6 ∧
    SPARKLE_DEFAULTS.ttlMin = 0.5 ∧ SPARKLE_DEFAULTS.ttlMax = 1.2 ∧
    componentFallbacks.canvasBleed = 48 ∧ SPARKLE_DEFAULTS.canvasBleed = 60 ∧
    componentFallbacks.gravity = SPARKLE_DEFAULTS.gravity ∧
    componentFallbacks.maxParticles = SPARKLE_DEFAULTS.maxParticles ∧
    componentFallbacks.paused = SPARKLE_DEFAULTS.paused ∧
    componentSpread = defaultsFileSpread ∧
    SPARKLE_DEFAULTS.allowInside = false ∧
    componentFallbacks.emissionRate ≠ SPARKLE_DEFAULTS.emissionRate ∧
    componentFallbacks.speed ≠ SPARKLE_DEFAULTS.speed ∧
    componentFallbacks.sizeMin ≠ SPARKLE_DEFAULTS.sizeMin ∧
    componentFallbacks.sizeMax ≠ SPARKLE_DEFAULTS.sizeMax ∧
    componentFallbacks.ttlMin ≠ SPARKLE_DEFAULTS.ttlMin ∧
    componentFallbacks.ttlMax ≠ SPARKLE_DEFAULTS.ttlMax ∧
    componentFallbacks.canvasBleed ≠ SPARKLE_DEFAULTS.canvasBleed := by
  refine ⟨rfl, rfl, rfl, rfl, rfl, rfl, rfl, rfl, rfl, rfl, rfl, rfl, rfl, rfl, rfl,
    rfl, rfl, rfl, rfl, ?_, ?_, ?_, ?_, ?_, ?_, ?_⟩
  all_goals norm_num [componentFallbacks, SPARKLE_DEFAULTS]

theorem regionOf_eq_outside_iff {m : Mask} (hW : 1 ≤ m.width) (hH : 1 ≤ m.height)
    (x y : Int) : regionOf m x y = .outside ↔ floodFill m x y = true := by
  constructor
  · intro h
    unfold regionOf at h
    split at h
    · cases h
    · split at h
      · rename_i hf
        exact hf
      · cases h
  · intro hf
    have hnf := ((floodFill_sound_complete hW hH).1 (x, y) hf).2.1
    unfold regionOf
    simp only at hnf
    rw [if_neg (by simp [hnf]), if_pos hf]

theorem regionOf_eq_hole_iff (m : Mask) (x y : Int) :
    regionOf m x y = .hole ↔ (m.inside x y = false ∧ floodFill m x y = false) := by
  unfold regionOf
  rcases Bool.eq_false_or_eq_true (m.inside x y) with hi | hi <;>
    rcases Bool.eq_false_or_eq_true (floodFill m x y) with hf | hf <;>
      simp [hi, hf]

theorem isHoleAt_iff (m : Mask) (x y : Int) :
    isHoleAt m x y = true ↔ (m.inside x y = false ∧ floodFill m x y = false) := by
  unfold isHoleAt
  rcases Bool.eq_false_or_eq_true (m.inside x y) with hi | hi <;>
    rcases Bool.eq_false_or_eq_true (floodFill m x y) with hf | hf <;>
      simp [hi, hf]

theorem len2_neg (a b : Int) : len2 (-a) (-b) = len2 a b := by
  unfold len2
  ring

theorem rstep_neg (g L : Int) : rstep (-g) L = -(rstep g L) := by
  unfold rstep
  split <;> ring

theorem round_sqrt_two : round (Real.sqrt 2) = 1 := by
  rw [round_eq]
  have h1 : (1 : ℝ) ≤ Real.sqrt 2 := by
    rw [show (1 : ℝ) = Real.sqrt 1 by simp]
    exact Real.sqrt_le_sqrt (by norm_num)
  have h2 : Real.sqrt 2 < 3 / 2 := by
    rw [show (3 / 2 : ℝ) = Real.sqrt ((3 / 2) ^ 2) by rw [Real.sqrt_sq (by norm_num)]]
    apply Real.sqrt_lt_sqrt (by norm_num)
    norm_num
  rw [Int.floor_eq_iff]
  push_cast
  constructor <;> linarith

theorem round_neg_sqrt_two : round (-Real.sqrt 2) = -1 := by
  rw [round_eq]
  have h1 : (1 : ℝ) ≤ Real.sqrt 2 := by
    rw [show (1 : ℝ) = Real.sqrt 1 by simp]
    exact Real.sqrt_le_sqrt (by norm_num)
  have h2 : Real.sqrt 2 < 3 / 2 := by
    rw [show (3 / 2 : ℝ) = Real.sqrt ((3 / 2) ^ 2) by rw [Real.sqrt_sq (by norm_num)]]
    apply Real.sqrt_lt_sqrt (by norm_num)
    norm_num
  rw [Int.floor_eq_iff]
  push_cast
  constructor <;> linarith

theorem two_div_sqrt_two : (2 : ℝ) / Real.sqrt 2 = Real.sqrt 2 := by
  rw [eq_comm, eq_div_iff (by positivity)]
  exact Real.mul_self_sqrt (by norm_num)

theorem hypotOr1_diag (g o : Int) (hg : g.natAbs = 1) (ho : o.natAbs = 1) :
    hypotOr1 g o = Real.sqrt 2 := by
  have hg2 : (g : ℝ) ^ 2 = 1 := by
    have : g = -1 ∨ g = 1 := by omega
    rcases this with rfl | rfl <;> norm_num
  have ho2 : (o : ℝ) ^ 2 = 1 := by
    have : o = -1 ∨ o = 1 := by omega
    rcases this with rfl | rfl <;> norm_num
  unfold hypotOr1
  rw [hg2, ho2, show (1 : ℝ) + 1 = 2 by norm_num,
    if_neg (ne_of_gt (Real.sqrt_pos.mpr (by norm_num)))]

/-- Fidelity of the integer probe step: for gradient components in {-1,0,1},
`rstep` computes exactly `Math.round(g / (Math.hypot(gx,gy) || 1) * 2)`,
i.e. the round of the exact real quotient `2g / hypotOr1`. -/
theorem rstep_models_round (g o : Int) (hg : g.natAbs ≤ 1) (ho : o.natAbs ≤ 1) :
    rstep g (len2 g o) = round (2 * (g : ℝ) / hypotOr1 g o) := by
  have hg3 : g = -1 ∨ g = 0 ∨ g = 1 := by omega
  have ho3 : o = -1 ∨ o = 0 ∨ o = 1 := by omega
  rcases hg3 with rfl | rfl | rfl
  · rcases ho3 with rfl | rfl | rfl
    · rw [hypotOr1_diag _ _ (by decide) (by decide),
        show 2 * ((-1 : Int) : ℝ) / Real.sqrt 2 = -(2 / Real.sqrt 2) by push_cast; ring,
        two_div_sqrt_two, round_neg_sqrt_two]
      decide
    · unfold hypotOr1
      norm_num [Real.sqrt_one]
      rw [show (-2 : ℝ) = ((-2 : Int) : ℝ) by norm_num, round_intCast]
      decide
    · rw [hypotOr1_diag _ _ (by decide) (by decide),
        show 2 * ((-1 : Int) : ℝ) / Real.sqrt 2 = -(2 / Real.sqrt 2) by push_cast; ring,
        two_div_sqrt_two, round_neg_sqrt_two]
      decide
  · have : 2 * ((0 : Int) : ℝ) / hypotOr1 0 o = 0 := by push_cast; ring
    rw [this, round_zero]
    rcases ho3 with rfl | rfl | rfl <;> decide
  · rcases ho3 with rfl | rfl | rfl
    · rw [hypotOr1_diag _ _ (by decide) (by decide),
        show 2 * ((1 : Int) : ℝ) / Real.sqrt 2 = 2 / Real.sqrt 2 by push_cast; ring,
        two_div_sqrt_two, round_sqrt_two]
      decide
    · unfold hypotOr1
      norm_num [Real.sqrt_one]
      decide
    · rw [hypotOr1_diag _ _ (by decide) (by decide),
        show 2 * ((1 : Int) : ℝ) / Real.sqrt 2 = 2 / Real.sqrt 2 by push_cast; ring,
        two_div_sqrt_two, round_sqrt_two]
      decide

/-- Claim C2 counterexample: on `mask5` the extractor emits, for the fill
cell (2,2), an outside-oriented edge point whose stored normal's ~2 px probe
lands on the fill cell (1,1) — not on an OUTSIDE cell — because both
orientations of its diagonal gradient probe into fill. -/
theorem edge_probe_claim_false : ¬ (∀ e ∈ edgePoints mask5, probeOK mask5 e) := by
  intro h
  exact absurd (h ⟨2, 2, -1, -1, .outside⟩ (by decide)) (by decide)

/-- Claim C2 (amended): the orientation correction is exactly a best-effort
flip: whenever an emitted edge point's stored normal probes outside its
claimed region type, the opposite orientation's probe misses it as well — so
the stored normal probes into the claimed region whenever either orientation
does (and when the unflipped probe succeeds the normal is stored unflipped). -/
theorem edge_probe_flip_best_effort (m : Mask) (hW : 1 ≤ m.width) (hH : 1 ≤ m.height)
    (e : EdgePoint) (he : e ∈ edgePoints m) (hbad : ¬ probeOK m e) :
    ¬ probeOK m (flipNormal e) := by
  unfold edgePoints at he
  rw [List.mem_flatMap] at he
  obtain ⟨iy, _, he⟩ := he
  rw [List.mem_flatMap] at he
  obtain ⟨ix, _, he⟩ := he
  unfold cellEdges at he
  dsimp only at he
  split at he
  · cases he
  · split at he
    · cases he
    · rw [List.mem_append] at he
      rcases he with he | he
      · split at he
        · split at he
          · rename_i hflip
            rw [List.mem_singleton] at he
            subst he
            intro hpo
            unfold probeOK probeTarget flipNormal at hpo
            dsimp only at hpo
            simp only [neg_neg, len2_neg] at hpo
            have h2 := (regionOf_eq_outside_iff hW hH _ _).mp hpo
            simp only [Bool.not_eq_true'] at hflip
            unfold isOutsideAt at hflip
            rw [hflip] at h2
            exact absurd h2 (by simp)
          · rename_i hok
            rw [List.mem_singleton] at he
            subst he
            exfalso
            apply hbad
            unfold probeOK probeTarget
            dsimp only
            refine (regionOf_eq_outside_iff hW hH _ _).mpr ?_
            simp only [Bool.not_eq_true, Bool.not_eq_false'] at hok
            unfold isOutsideAt at hok
            exact hok
        · cases he
      · split at he
        · split at he
          · rename_i hflip
            rw [List.mem_singleton] at he
            subst he
            intro hpo
            unfold probeOK probeTarget flipNormal at hpo
            dsimp only at hpo
            simp only [neg_neg, len2_neg] at hpo
            have h2 := (isHoleAt_iff _ _ _).mpr ((regionOf_eq_hole_iff _ _ _).mp hpo)
            simp only [Bool.not_eq_true'] at hflip
            rw [hflip] at h2
            exact absurd h2 (by simp)
          · rename_i hok
            rw [List.mem_singleton] at he
            subst he
            exfalso
            apply hbad
            unfold probeOK probeTarget
            dsimp only
            refine (regionOf_eq_hole_iff _ _ _).mpr ?_
            simp only [Bool.not_eq_true, Bool.not_eq_false'] at hok
            exact (isHoleAt_iff _ _ _).mp hok
        · cases he

/-- Witness for the amended claim C2 at the concrete emitted point of
`mask5` whose stored probe misses: the opposite orientation misses too. -/
theorem edge_probe_flip_best_effort_witness :
    1 ≤ mask5.width ∧ 1 ≤ mask5.height ∧
    (⟨2, 2, -1, -1, .outside⟩ : EdgePoint) ∈ edgePoints mask5 ∧
    ¬ probeOK mask5 ⟨2, 2, -1, -1, .outside⟩ ∧
    ¬ probeOK mask5 (flipNormal ⟨2, 2, -1, -1, .outside⟩) :=
  ⟨by decide, by decide, by decide, by decide,
    edge_probe_flip_best_effort mask5 (by decide) (by decide) ⟨2, 2, -1, -1, .outside⟩
      (by decide) (by decide)⟩

theorem gradX_range (m : Mask) (ix iy : Int) : (gradX m ix iy).natAbs ≤ 1 := by
  unfold gradX
  split <;> split <;> decide

theorem gradY_range (m : Mask) (ix iy : Int) : (gradY m ix iy).natAbs ≤ 1 := by
  unfold gradY
  split <;> split <;> decide

theorem mem_edgePoints_numerators {m : Mask} {e : EdgePoint} (he : e ∈ edgePoints m) :
    (e.nx = gradX m e.x e.y ∧ e.ny = gradY m e.x e.y) ∨
    (e.nx = -gradX m e.x e.y ∧ e.ny = -gradY m e.x e.y) := by
  unfold edgePoints at he
  rw [List.mem_flatMap] at he
  obtain ⟨iy, _, he⟩ := he
  rw [List.mem_flatMap] at he
  obtain ⟨ix, _, he⟩ := he
  unfold cellEdges at he
  dsimp only at he
  split at he
  · cases he
  · split at he
    · cases he
    · rw [List.mem_append] at he
      rcases he with he | he
      · split at he
        · split at he <;>
            · rw [List.mem_singleton] at he
              subst he
              simp
        · cases he
      · split at he
        · split at he <;>
            · rw [List.mem_singleton] at he
              subst he
              simp
        · cases he

/-- Claim C6 counterexample: on the 3x3 isolated-dot mask the centre fill
cell has zero central-difference gradient in both axes, yet an EdgePoint IS
emitted for it — with a zero (hence non-unit) stored normal. -/
theorem zero_gradient_still_emits :
    gradX mask3 1 1 = 0 ∧ gradY mask3 1 1 = 0 ∧
    edgePoints mask3 = [⟨1, 1, 0, 0, .outside⟩] ∧
    (⟨1, 1, 0, 0, .outside⟩ : EdgePoint).nx = 0 ∧
    (⟨1, 1, 0, 0, .outside⟩ : EdgePoint).ny = 0 :=
  ⟨by decide, by decide, by decide, rfl, rfl⟩

/-- Claim C6 (amended): a fill cell with zero gradient that touches OUTSIDE
or HOLE still emits an edge point; every emitted point's stored numerator
pair is the (possibly negated) central-difference gradient, with components
in {-1,0,1}; the reconstructed float normal is the zero vector exactly when
the gradient is zero (the `hypot || 1` fallback prevents a NaN), and has unit
length whenever the gradient is nonzero. -/
theorem edge_normal_unit_or_zero (m : Mask) (e : EdgePoint) (he : e ∈ edgePoints m) :
    e.nx.natAbs ≤ 1 ∧ e.ny.natAbs ≤ 1 ∧
    (e.nx = 0 ∧ e.ny = 0 → normalX e = 0 ∧ normalY e = 0) ∧
    (¬(e.nx = 0 ∧ e.ny = 0) → normalX e ^ 2 + normalY e ^ 2 = 1) := by
  refine ⟨?_, ?_, ?_, ?_⟩
  · rcases mem_edgePoints_numerators he with h | h <;> rw [h.1]
    · exact gradX_range m e.x e.y
    · rw [Int.natAbs_neg]
      exact gradX_range m e.x e.y
  · rcases mem_edgePoints_numerators he with h | h <;> rw [h.2]
    · exact gradY_range m e.x e.y
    · rw [Int.natAbs_neg]
      exact gradY_range m e.x e.y
  · rintro ⟨hz1, hz2⟩
    constructor <;> simp [normalX, normalY, hz1, hz2]
  · intro hnz
    have h1 : (e.nx : ℝ) ≠ 0 ∨ (e.ny : ℝ) ≠ 0 := by
      rcases not_and_or.mp hnz with h | h
      · left
        exact_mod_cast h
      · right
        exact_mod_cast h
    have hpos : 0 < (e.nx : ℝ) ^ 2 + (e.ny : ℝ) ^ 2 := by
      rcases h1 with h | h
      · have hx := lt_of_le_of_ne (sq_nonneg ((e.nx : ℝ))) (Ne.symm (pow_ne_zero 2 h))
        have hy := sq_nonneg ((e.ny : ℝ))
        linarith
      · have hx := sq_nonneg ((e.nx : ℝ))
        have hy := lt_of_le_of_ne (sq_nonneg ((e.ny : ℝ))) (Ne.symm (pow_ne_zero 2 h))
        linarith
    have hsq : 0 < Real.sqrt ((e.nx : ℝ) ^ 2 + (e.ny : ℝ) ^ 2) := Real.sqrt_pos.mpr hpos
    unfold normalX normalY hypotOr1
    rw [if_neg (ne_of_gt hsq)]
    rw [div_pow, div_pow, div_add_div_same, Real.sq_sqrt (le_of_lt hpos)]
    exact div_self (ne_of_gt hpos)

/-- Witness for the amended claim C6 at the zero-gradient point of `mask3`. -/
theorem edge_normal_unit_or_zero_witness :
    (⟨1, 1, 0, 0, .outside⟩ : EdgePoint) ∈ edgePoints mask3 ∧
    ((⟨1, 1, 0, 0, .outside⟩ : EdgePoint).nx.natAbs ≤ 1 ∧
      (⟨1, 1, 0, 0, .outside⟩ : EdgePoint).ny.natAbs ≤ 1 ∧
      ((⟨1, 1, 0, 0, .outside⟩ : EdgePoint).nx = 0 ∧
          (⟨1, 1, 0, 0, .outside⟩ : EdgePoint).ny = 0 →
        normalX ⟨1, 1, 0, 0, .outside⟩ = 0 ∧ normalY ⟨1, 1, 0, 0, .outside⟩ = 0) ∧
      (¬((⟨1, 1, 0, 0, .outside⟩ : EdgePoint).nx = 0 ∧
          (⟨1, 1, 0, 0, .outside⟩ : EdgePoint).ny = 0) →
        normalX ⟨1, 1, 0, 0, .outside⟩ ^ 2 + normalY ⟨1, 1, 0, 0, .outside⟩ ^ 2 = 1)) :=
  ⟨by decide, edge_normal_unit_or_zero mask3 ⟨1, 1, 0, 0, .outside⟩ (by decide)⟩

theorem mem_scanRange {n : Nat} {a : Int} :
    a ∈ scanRange n ↔ 1 ≤ a ∧ a < (n : Int) - 1 := by
  unfold scanRange
  rw [List.mem_map]
  constructor
  · rintro ⟨i, hi, rfl⟩
    rw [List.mem_range] at hi
    omega
  · rintro ⟨h1, h2⟩
    exact ⟨(a - 1).toNat, by rw [List.mem_range]; omega, by omega⟩

theorem readCell_inB {m : Mask} {x y : Int} (h : inB m (x, y)) :
    readCell m x y = some (m.inside x y, floodFill m x y) := by
  unfold readCell
  rw [if_pos ⟨h.1, h.2.1, h.2.2.1, h.2.2.2⟩]

theorem clampIdx_bounds {n : Nat} (h : 1 ≤ n) (v : Int) :
    0 ≤ clampIdx n v ∧ clampIdx n v < (n : Int) := by
  unfold clampIdx
  rw [min_def, max_def]
  split <;> split <;> omega

theorem readCell_clamped {m : Mask} (hW : 1 ≤ m.width) (hH : 1 ≤ m.height)
    (v w : Int) :
    readCell m (clampIdx m.width v) (clampIdx m.height w) =
      some (m.inside (clampIdx m.width v) (clampIdx m.height w),
        floodFill m (clampIdx m.width v) (clampIdx m.height w)) :=
  readCell_inB ⟨(clampIdx_bounds hW v).1, (clampIdx_bounds hW v).2,
    (clampIdx_bounds hH w).1, (clampIdx_bounds hH w).2⟩

theorem mapM_option_some {α β : Type} (f : α → Option β) (g : α → β) :
    ∀ l : List α, (∀ a ∈ l, f a = some (g a)) → l.mapM f = some (l.map g)
  | [], _ => rfl
  | a :: l, h => by
      rw [List.mapM_cons, h a (List.mem_cons_self _ _),
        mapM_option_some f g l (fun b hb => h b (List.mem_cons_of_mem _ hb))]
      rfl

theorem cellEdgesChecked_eq {m : Mask} (hW : 1 ≤ m.width) (hH : 1 ≤ m.height)
    {ix iy : Int} (hix : 1 ≤ ix ∧ ix < (m.width : Int) - 1)
    (hiy : 1 ≤ iy ∧ iy < (m.height : Int) - 1) :
    cellEdgesChecked m ix iy = some (cellEdges m ix iy) := by
  have hb0 : inB m (ix, iy) := ⟨by omega, by omega, by omega, by omega⟩
  have hbR : inB m (ix + 1, iy) := ⟨by omega, by omega, by omega, by omega⟩
  have hbL : inB m (ix - 1, iy) := ⟨by omega, by omega, by omega, by omega⟩
  have hbD : inB m (ix, iy + 1) := ⟨by omega, by omega, by omega, by omega⟩
  have hbU : inB m (ix, iy - 1) := ⟨by omega, by omega, by omega, by omega⟩
  have hnb : ∀ d ∈ nbrDeltas,
      readCell m (ix + d.1) (iy + d.2) =
        some (m.inside (ix + d.1) (iy + d.2), floodFill m (ix + d.1) (iy + d.2)) := by
    intro d hd
    have hs := nbrDeltas_small d hd
    exact readCell_inB ⟨by omega, by omega, by omega, by omega⟩
  unfold cellEdgesChecked cellEdges
  rw [readCell_inB hb0,
    mapM_option_some _
      (fun d => (m.inside (ix + d.1) (iy + d.2), floodFill m (ix + d.1) (iy + d.2)))
      nbrDeltas hnb,
    readCell_inB hbR, readCell_inB hbL, readCell_inB hbD, readCell_inB hbU]
  simp only [readCell_clamped hW hH]
  simp only [Option.bind_eq_bind, Option.some_bind, Option.pure_def]
  simp only [apply_ite (some : List EdgePoint → Option (List EdgePoint))]
  unfold isOutsideAt isHoleAt gradX gradY
  have hTO : ((List.map (fun d => (m.inside (ix + d.1) (iy + d.2),
      floodFill m (ix + d.1) (iy + d.2))) nbrDeltas).any fun c => c.2) =
      (nbrDeltas.any fun d => floodFill m (ix + d.1) (iy + d.2)) := rfl
  have hTH : ((List.map (fun d => (m.inside (ix + d.1) (iy + d.2),
      floodFill m (ix + d.1) (iy + d.2))) nbrDeltas).any fun c =>
        !c.2 && (!c.1 && !c.2)) =
      (nbrDeltas.any fun d => !floodFill m (ix + d.1) (iy + d.2) &&
        (!m.inside (ix + d.1) (iy + d.2) && !floodFill m (ix + d.1) (iy + d.2))) := rfl
  rw [hTO, hTH]
  rcases Bool.eq_false_or_eq_true (m.inside ix iy) with hIv | hIv <;>
    rcases Bool.eq_false_or_eq_true (nbrDeltas.any fun d =>
      floodFill m (ix + d.1) (iy + d.2)) with hTOv | hTOv <;>
      rcases Bool.eq_false_or_eq_true (nbrDeltas.any fun d =>
        !floodFill m (ix + d.1) (iy + d.2) && (!m.inside (ix + d.1) (iy + d.2) &&
          !floodFill m (ix + d.1) (iy + d.2))) with hTHv | hTHv <;>
        simp [hIv, hTOv, hTHv]

theorem edgePointsChecked_eq {m : Mask} (hW : 1 ≤ m.width) (hH : 1 ≤ m.height) :
    edgePointsChecked m = some (edgePoints m) := by
  unfold edgePointsChecked edgePoints
  have hrow : ∀ iy ∈ scanRange m.height,
      (do
        let cells ← (scanRange m.width).mapM fun ix => cellEdgesChecked m ix iy
        pure cells.flatten : Option (List EdgePoint)) =
      some (((scanRange m.width).map fun ix => cellEdges m ix iy).flatten) := by
    intro iy hiy
    rw [mapM_option_some _ (fun ix => cellEdges m ix iy) _
      (fun ix hix => cellEdgesChecked_eq hW hH (mem_scanRange.mp hix) (mem_scanRange.mp hiy))]
    rfl
  rw [mapM_option_some _
    (fun iy => ((scanRange m.width).map fun ix => cellEdges m ix iy).flatten) _ hrow]
  rfl

/-- Claim C10: for every mask of positive dimensions, the edge extraction
touches the `inside`/`outside` grids only at in-bounds indices — the scan
ranges over interior cells only (`x ∈ [1, width-2]`, `y ∈ [1, height-2]`,
keeping every 8-neighbour and central-difference read in-bounds), the probe
coordinates are clamped into `[0, width-1] × [0, height-1]`, and the fully
bounds-checked extraction `edgePointsChecked` succeeds with exactly the
unchecked result, so no access is ever out of bounds. -/
theorem edge_extraction_in_bounds (m : Mask) (hW : 1 ≤ m.width) (hH : 1 ≤ m.height) :
    (∀ ix ∈ scanRange m.width, 1 ≤ ix ∧ ix + 1 ≤ (m.width : Int) - 1) ∧
    (∀ iy ∈ scanRange m.height, 1 ≤ iy ∧ iy + 1 ≤ (m.height : Int) - 1) ∧
    (∀ v : Int, 0 ≤ clampIdx m.width v ∧ clampIdx m.width v < (m.width : Int)) ∧
    (∀ v : Int, 0 ≤ clampIdx m.height v ∧ clampIdx m.height v < (m.height : Int)) ∧
    edgePointsChecked m = some (edgePoints m) := by
  refine ⟨?_, ?_, ?_, ?_, edgePointsChecked_eq hW hH⟩
  · intro ix hix
    have := mem_scanRange.mp hix
    omega
  · intro iy hiy
    have := mem_scanRange.mp hiy
    omega
  · exact clampIdx_bounds hW
  · exact clampIdx_bounds hH

/-- Witness for claim C10 at the concrete mask `mask5`. -/
theorem edge_extraction_in_bounds_witness :
    1 ≤ mask5.width ∧ 1 ≤ mask5.height ∧
    ((∀ ix ∈ scanRange mask5.width, 1 ≤ ix ∧ ix + 1 ≤ (mask5.width : Int) - 1) ∧
      (∀ iy ∈ scanRange mask5.height, 1 ≤ iy ∧ iy + 1 ≤ (mask5.height : Int) - 1) ∧
      (∀ v : Int, 0 ≤ clampIdx mask5.width v ∧ clampIdx mask5.width v < (mask5.width : Int)) ∧
      (∀ v : Int, 0 ≤ clampIdx mask5.height v ∧ clampIdx mask5.height v < (mask5.height : Int)) ∧
      edgePointsChecked mask5 = some (edgePoints mask5)) :=
  ⟨by decide, by decide, edge_extraction_in_bounds mask5 (by decide) (by decide)⟩
